import Mathlib

/-!
# Verification of the iptv-proxy transcoding and buffering pipeline

A shallow embedding, in Lean 4, of the core components of the
`Savid/iptv-proxy` repository:

* `internal/buffer/circular.go` — the thread-safe circular byte buffer
  (`CircularBuffer.Write`, `Read`, `Available`, `Free`, `Close`);
* the retry manager (`RetryManager.RetryRead`);
* the buffer manager (`BufferManager.WaitForData`, `prefetchLoop`);
* `internal/hardware` — GPU detection (`Detector.DetectGPUs`), hardware
  selection (`Selector.SelectHardware`) and FFmpeg argument generation
  (`Selector.GetFFmpegArgs`);
* `internal/transcode` — profile construction (`CreateProfile`,
  `NewTranscodingProfile`) and FFmpeg command assembly
  (`FFmpegTranscoder.buildCommand`, `FFmpegTranscoder.Close`).

Go machine integers are modelled as `Nat`/`Int` (the quantities involved —
cursor positions, byte counts — never approach overflow in the source, and
all source arithmetic on them is non-negative), byte slices as `List Nat`,
Go strings as `String`.  Code that can block on a condition variable is
modelled with an explicit schedule of actions taken by the peer goroutine
while the modelled goroutine is suspended; a computation that would block
forever (or panic on out-of-range slice indices) returns `none`.
-/

namespace IPTV

/-! ## Circular buffer: state (`CircularBuffer` struct, circular.go lines 13-23) -/

/-- State of `CircularBuffer` (circular.go).  `data` has length `size`
(`make([]byte, size)`); bytes are modelled as `Nat`. -/
structure CircularBuffer where
  data : List Nat
  size : Nat
  writePos : Nat
  readPos : Nat
  bytesWritten : Nat
  bytesRead : Nat
  closed : Bool
  deriving Repr, DecidableEq

/-- `NewCircularBuffer(size)` (circular.go lines 29-36). -/
def newCircularBuffer (size : Nat) : CircularBuffer :=
  { data := List.replicate size 0
    size := size
    writePos := 0
    readPos := 0
    bytesWritten := 0
    bytesRead := 0
    closed := false }

/-- `CircularBuffer.Available` (circular.go lines 137-142):
`if writePos >= readPos { return writePos - readPos }`
`return size - readPos + writePos`. -/
def CircularBuffer.Available (b : CircularBuffer) : Nat :=
  if b.readPos ≤ b.writePos then b.writePos - b.readPos
  else b.size - b.readPos + b.writePos

/-- `CircularBuffer.Free` (circular.go lines 145-147):
`size - Available() - 1`, one byte reserved to distinguish full from
empty.  In reachable states `Available ≤ size - 1`, so the `Nat`
truncated subtraction agrees with Go's `int` arithmetic there. -/
def CircularBuffer.Free (b : CircularBuffer) : Nat :=
  b.size - b.Available - 1

/-- `CircularBuffer.Close` (circular.go lines 165-171). -/
def CircularBuffer.close (b : CircularBuffer) : CircularBuffer :=
  { b with closed := true }

/-- The cumulative state update performed by the write loop of one
`Write` pass (circular.go lines 74-80): new storage `d`, new write
cursor `w`, and `bytesWritten` advanced by the `L` bytes stored. -/
def afterWrite (b : CircularBuffer) (d : List Nat) (w L : Nat) : CircularBuffer :=
  { b with data := d, writePos := w, bytesWritten := b.bytesWritten + L }

/-- The cumulative state update performed by `Read`
(circular.go lines 121-127): new read cursor `rp`, `bytesRead` advanced
by the `t` bytes consumed. -/
def afterRead (b : CircularBuffer) (rp t : Nat) : CircularBuffer :=
  { b with readPos := rp, bytesRead := b.bytesRead + t }

/-! ## The copy primitive and the wrap-around chunk loops -/

/-- Go's `copy(d[pos:pos+len(src)], src)`: overwrite `d` at positions
`pos, pos+1, …` with the elements of `src` (positions past the end of
`d` are dropped by `List.set`, but all uses below stay in range). -/
def copyAt : List Nat → Nat → List Nat → List Nat
  | d, _, [] => d
  | d, pos, x :: s => copyAt (d.set pos x) (pos + 1) s

/-- The inner wrap-around loop of `CircularBuffer.Write`
(circular.go lines 66-81): repeatedly copy a contiguous run of
`min (size - writePos) (remaining chunk)` bytes at `writePos`, advancing
`writePos` modulo `size`.  Returns the new data array, the new
`writePos`, and the number of contiguous copies performed.  `none`
models the out-of-range panic Go would hit when `writePos ≥ size`
(unreachable from well-formed states). -/
def writeChunksF : Nat → Nat → List Nat → Nat → List Nat → Option (List Nat × Nat × Nat)
  | 0, _, data, writePos, chunk =>
    if chunk.length = 0 then some (data, writePos, 0) else none
  | fuel + 1, size, data, writePos, chunk =>
    if chunk.length = 0 then some (data, writePos, 0)
    else if writePos < size then
      let contiguous := min (size - writePos) chunk.length
      let data' := copyAt data writePos (chunk.take contiguous)
      match writeChunksF fuel size data' ((writePos + contiguous) % size)
          (chunk.drop contiguous) with
      | none => none
      | some (d, w, k) => some (d, w, k + 1)
    else none

/-- Entry point for the write chunk loop.  Each loop pass copies at
least one byte, so `chunk.length` fuel always suffices; exhausted fuel
(possible only in the panicking `writePos ≥ size` states) yields
`none`. -/
def writeChunks (size : Nat) (data : List Nat) (writePos : Nat) (chunk : List Nat) :
    Option (List Nat × Nat × Nat) :=
  writeChunksF chunk.length size data writePos chunk

/-- The inner wrap-around loop of `CircularBuffer.Read`
(circular.go lines 113-128): collect `toRead` bytes starting at
`readPos`, in contiguous runs of `min (size - readPos) remaining`.
Returns the bytes read (in order), the new `readPos`, and the number of
contiguous copies. -/
def readChunksF : Nat → Nat → List Nat → Nat → Nat → Option (List Nat × Nat × Nat)
  | 0, _, _, readPos, toRead =>
    if toRead = 0 then some ([], readPos, 0) else none
  | fuel + 1, size, data, readPos, toRead =>
    if toRead = 0 then some ([], readPos, 0)
    else if readPos < size then
      let contiguous := min (size - readPos) toRead
      let bytes := (data.drop readPos).take contiguous
      match readChunksF fuel size data ((readPos + contiguous) % size)
          (toRead - contiguous) with
      | none => none
      | some (rest, rp, k) => some (bytes ++ rest, rp, k + 1)
    else none

/-- Entry point for the read chunk loop; `toRead` fuel always suffices
since each loop pass reads at least one byte. -/
def readChunks (size : Nat) (data : List Nat) (readPos : Nat) (toRead : Nat) :
    Option (List Nat × Nat × Nat) :=
  readChunksF toRead size data readPos toRead

/-! ## Blocking calls

`Write` blocks (`cond.Wait()`) while the buffer is full, `Read` while it
is empty.  The buffer is single-producer/single-consumer, so while one
side is suspended only the peer goroutine (or `Close`) can change the
state.  We model the peer's actions during a wait as an explicit
schedule (`List EnvAct`); an empty schedule at a wait point means the
call blocks forever, which the model returns as `none`. -/

/-- An action by the peer goroutine while this call is suspended:
closing the buffer, the consumer reading up to `k` bytes, or the
producer writing the bytes of `p` that fit. -/
inductive EnvAct where
  | closeBuf : EnvAct
  | consume (k : Nat) : EnvAct
  | produce (p : List Nat) : EnvAct
  deriving Repr, DecidableEq

/-- Effect of one peer action on the buffer state (the consume/produce
cases follow one pass of the `Read`/`Write` bodies of circular.go). -/
def applyEnv (b : CircularBuffer) : EnvAct → Option CircularBuffer
  | .closeBuf => some b.close
  | .consume k =>
    let n := min k b.Available
    match readChunks b.size b.data b.readPos n with
    | none => none
    | some (_, rp, _) => some (afterRead b rp n)
  | .produce p =>
    let n := min p.length b.Free
    match writeChunks b.size b.data b.writePos (p.take n) with
    | none => none
    | some (d, w, _) => some (afterWrite b d w n)

/-- The wait loop of `Write` (circular.go lines 50-52):
`for b.Free() == 0 && !b.closed { b.cond.Wait() }`. -/
def waitWhileFull (b : CircularBuffer) (env : List EnvAct) :
    Option (CircularBuffer × List EnvAct) :=
  if b.Free = 0 ∧ b.closed = false then
    match env with
    | [] => none
    | a :: rest =>
      match applyEnv b a with
      | none => none
      | some b' => waitWhileFull b' rest
  else some (b, env)

/-- The wait loop of `Read` (circular.go lines 96-98):
`for b.Available() == 0 && !b.closed { b.cond.Wait() }`. -/
def waitWhileEmpty (b : CircularBuffer) (env : List EnvAct) :
    Option (CircularBuffer × List EnvAct) :=
  if b.Available = 0 ∧ b.closed = false then
    match env with
    | [] => none
    | a :: rest =>
      match applyEnv b a with
      | none => none
      | some b' => waitWhileEmpty b' rest
  else some (b, env)

/-- The outer loop of `CircularBuffer.Write` (circular.go lines 47-85):
`for written < len(p)` — wait while full, re-check `closed`, then write
`min(len(p)-written, free)` bytes via the wrap-around chunk loop.
Result: `(state, written, closedError?, contiguousCopies)`.  The fuel
only bounds loop iterations; each productive iteration writes at least
one byte, so `len(p)+1` fuel is always sufficient and running out
models divergence. -/
def writeOuter : Nat → CircularBuffer → List Nat → Nat → List EnvAct →
    Option (CircularBuffer × Nat × Bool × Nat)
  | 0, _, _, _, _ => none
  | fuel + 1, b, p, written, env =>
    if written < p.length then
      match waitWhileFull b env with
      | none => none
      | some (b1, env1) =>
        if b1.closed then some (b1, written, true, 0)
        else
          let toWrite := min (p.length - written) b1.Free
          match writeChunks b1.size b1.data b1.writePos ((p.drop written).take toWrite) with
          | none => none
          | some (d, w, k) =>
            match writeOuter fuel (afterWrite b1 d w toWrite) p (written + toWrite) env1 with
            | none => none
            | some (b2, n, e, k2) => some (b2, n, e, k + k2)
    else some (b, written, false, 0)

/-- `CircularBuffer.Write` (circular.go lines 39-88). -/
def writeGo (b : CircularBuffer) (p : List Nat) (env : List EnvAct) :
    Option (CircularBuffer × Nat × Bool × Nat) :=
  if b.closed then some (b, 0, true, 0)
  else writeOuter (p.length + 1) b p 0 env

/-- `CircularBuffer.Read` (circular.go lines 91-134): wait while empty
and open; `io.EOF` once closed and drained; otherwise read
`min (len p) available` bytes via the wrap-around chunk loop.
Result: `(state, bytes, eof?, contiguousCopies)`. -/
def readGo (b : CircularBuffer) (n : Nat) (env : List EnvAct) :
    Option (CircularBuffer × List Nat × Bool × Nat) :=
  match waitWhileEmpty b env with
  | none => none
  | some (b1, _) =>
    if b1.Available = 0 ∧ b1.closed = true then some (b1, [], true, 0)
    else
      let toRead := min n b1.Available
      match readChunks b1.size b1.data b1.readPos toRead with
      | none => none
      | some (bytes, rp, k) => some (afterRead b1 rp toRead, bytes, false, k)

/-! ## Sequences of buffer operations

The buffer is single-producer/single-consumer; interleavings at the
granularity of whole calls are modelled as a list of operations.  A call
that would suspend with no peer action scheduled (`env = []`), or a
write that returns the closed error, aborts the run (`none`). -/

/-- One API call on the buffer. -/
inductive BufOp where
  | write (p : List Nat) : BufOp
  | read (n : Nat) : BufOp
  | closeOp : BufOp

/-- Execute a sequence of calls, collecting the byte lists returned by
reads and the number of contiguous copies performed by each
write/read call. -/
def run : CircularBuffer → List BufOp → Option (CircularBuffer × List (List Nat) × List Nat)
  | b, [] => some (b, [], [])
  | b, .write p :: ops =>
    match writeGo b p [] with
    | some (b1, _, false, k) =>
      match run b1 ops with
      | none => none
      | some (b2, outs, ks) => some (b2, outs, k :: ks)
    | _ => none
  | b, .read n :: ops =>
    match readGo b n [] with
    | none => none
    | some (b1, bytes, _, k) =>
      match run b1 ops with
      | none => none
      | some (b2, outs, ks) => some (b2, bytes :: outs, k :: ks)
  | b, .closeOp :: ops =>
    match run b.close ops with
    | none => none
    | some (b2, outs, ks) => some (b2, outs, ks)

/-- The bytes passed to the write calls of a sequence, concatenated in
order. -/
def joinWrites (ops : List BufOp) : List Nat :=
  (ops.filterMap fun op => match op with | .write p => some p | _ => none).flatten

/-! ## Abstraction: the unread content of the buffer -/

/-- The unread bytes of the buffer, oldest first: the `Available`
bytes starting at `readPos`, wrapping around the storage array. -/
def contents (b : CircularBuffer) : List Nat :=
  (List.range b.Available).map fun i => b.data.getD ((b.readPos + i) % b.size) 0

/-- Well-formedness of a buffer state: the storage has length `size`,
both cursors are in range, and the byte counters tally with the cursor
distance.  Holds for `newCircularBuffer size` (`size ≥ 1`) and is
preserved by every operation. -/
def WF (b : CircularBuffer) : Prop :=
  b.data.length = b.size ∧ b.writePos < b.size ∧ b.readPos < b.size ∧
    b.bytesWritten = b.bytesRead + b.Available

/-! ## Retry manager (`RetryManager.RetryRead`, src/unnamed/part_004)

A stateful `io.Reader` is modelled as a function from the index of the
`Read` call to that call's outcome.  Backoff sleeps
(`time.Sleep(currentDelay)`, `currentDelay *= backoff`) only affect
timing, not results, and are not modelled. -/

/-- Outcome of one `reader.Read(buf)` call: `(n, nil)`, `(n, io.EOF)`,
or `(n, err)` with some other error (identified by a number; Go
discards `n` on the error path, so it is not recorded). -/
inductive RRes where
  | ok (n : Nat) : RRes
  | eofR (n : Nat) : RRes
  | err (e : Nat) : RRes
  deriving Repr, DecidableEq

/-- Result of `RetryRead`: the returned `(count, error)` pair together
with ghost instrumentation — `retries` is the number of
`atomic.AddInt64(&r.retryCount, 1)` increments performed by the call,
`calls` the number of `reader.Read` invocations.  On failure the
wrapped error records the retry budget (`%d` = `maxRetries`) and the
last underlying error. -/
structure RROut where
  count : Nat
  isEof : Bool
  failed : Bool
  wrappedBudget : Option Nat
  wrappedErr : Option Nat
  retries : Nat
  calls : Nat
  deriving Repr, DecidableEq

/-- The loop of `RetryRead` (part_004 lines 33-48):
`for attempt := 0; attempt <= r.maxRetries; attempt++`.  `left` counts
the remaining iterations (`maxRetries + 1 - attempt`), making the
recursion structural; `count` and `lastErr` thread the accumulated
retry increments and the last error. -/
def retryReadGo (reader : Nat → RRes) (maxRetries : Nat) :
    Nat → Nat → Nat → Option Nat → RROut
  | attempt, 0, count, lastErr =>
    { count := 0, isEof := false, failed := true
      wrappedBudget := some maxRetries, wrappedErr := lastErr
      retries := count, calls := attempt }
  | attempt, left + 1, count, lastErr =>
    match reader attempt with
    | .ok n =>
      { count := n, isEof := false, failed := false
        wrappedBudget := none, wrappedErr := none
        retries := count, calls := attempt + 1 }
    | .eofR n =>
      { count := n, isEof := true, failed := false
        wrappedBudget := none, wrappedErr := none
        retries := count, calls := attempt + 1 }
    | .err e => retryReadGo reader maxRetries (attempt + 1) left (count + 1) (some e)

/-- `RetryManager.RetryRead` (part_004 lines 29-51). -/
def retryRead (maxRetries : Nat) (reader : Nat → RRes) : RROut :=
  retryReadGo reader maxRetries 0 (maxRetries + 1) 0 none

/-! ## Buffer manager (`BufferManager`, src/unnamed/part_003)

`WaitForData` polls shared state on a 10 ms ticker with a 30 s
timeout; the loop is modelled over the stream of observations
`obs i = (buffer.Available(), isPrefetchActive())` made at the i-th
tick, with `fuel` ticks remaining before the timeout channel fires.
The prefetch loop's per-iteration throttle decision compares
`Stats().BufferLevel` — the float64 quotient `available/size` — with
the configured prefetch ratio; both are modelled as exact rationals
(the magnitudes involved are far below any float64 rounding that could
flip these comparisons, and `size > 0` whenever a manager exists). -/

/-- Result of `WaitForData`: success, `io.EOF`, or the distinct
`"timeout waiting for data"` error. -/
inductive WFDResult where
  | success : WFDResult
  | eofR : WFDResult
  | timeoutR : WFDResult
  deriving Repr, DecidableEq

/-- `BufferManager.WaitForData` (part_003 lines 128-147): on each tick,
return success if `Available() >= minBytes`; else return `io.EOF` if
the prefetch loop is inactive and `Available() == 0`; else keep
polling, returning the timeout error when the 30-second limit fires. -/
def waitForData (minBytes : Nat) (obs : Nat → Nat × Bool) : Nat → WFDResult
  | 0 => .timeoutR
  | fuel + 1 =>
    if minBytes ≤ (obs 0).1 then .success
    else if (obs 0).2 = false ∧ (obs 0).1 = 0 then .eofR
    else waitForData minBytes (fun n => obs (n + 1)) fuel

/-- What one iteration of `prefetchLoop` does next. -/
inductive PrefetchStep where
  | stopped : PrefetchStep
  | throttleSleep : PrefetchStep
  | issueRead : PrefetchStep
  deriving Repr, DecidableEq

/-- One iteration of `BufferManager.prefetchLoop` (part_003 lines
67-101): return on cancellation; sleep 100 ms and recheck when
`stats.BufferLevel > config.PrefetchRatio` (strict); otherwise perform
one retried read from the source. -/
def prefetchDecision (cancelled : Bool) (available size : Nat)
    (prefetchRatio : ℚ) : PrefetchStep :=
  if cancelled then .stopped
  else if (available : ℚ) / (size : ℚ) > prefetchRatio then .throttleSleep
  else .issueRead

/-! ## Hardware data model (`internal/types/transcoding.go`) -/

/-- `HardwareType` string constants. -/
inductive HardwareType where
  | auto : HardwareType
  | cpu : HardwareType
  | nvidia : HardwareType
  | intel : HardwareType
  | amd : HardwareType
  deriving Repr, DecidableEq

/-- The underlying string value of a `HardwareType` constant
(`types.HardwareAuto = "auto"`, …). -/
def HardwareType.str : HardwareType → String
  | .auto => "auto"
  | .cpu => "cpu"
  | .nvidia => "nvidia"
  | .intel => "intel"
  | .amd => "amd"

/-- `types.HardwareInfo`.  `hwType` is the Go field `Type` (a Lean
keyword). -/
structure HardwareInfo where
  hwType : HardwareType
  devicePath : String
  deviceID : Int
  deviceName : String
  capabilities : List String
  available : Bool
  deriving Repr, DecidableEq

/-! ## Hardware detection (`Detector.DetectGPUs`,
src/unnamed/part_005 lines 44-72 and part_006 lines 28-56) -/

/-- The CPU entry `DetectGPUs` always prepends (part_005 lines 48-54);
`DeviceID` and `DeviceName` are left at their Go zero values. -/
def cpuFallback : HardwareInfo :=
  { hwType := .cpu, devicePath := "", deviceID := 0, deviceName := ""
    capabilities := ["h264", "h265", "vp8", "vp9"], available := true }

/-- `Detector.DetectGPUs`: the per-vendor probes (`CheckNVIDIA`,
`CheckIntel`, `CheckAMD`) shell out to external tools; each probe's
outcome is a parameter — `some g` when it returned a device with a nil
error, `none` when it failed for any reason (tool absent, no devices,
no confirmed codec). -/
def detectGPUs (nvidia intel amd : Option HardwareInfo) : List HardwareInfo :=
  let gpus := [cpuFallback]
  let gpus := match nvidia with | some g => gpus ++ [g] | none => gpus
  let gpus := match intel with | some g => gpus ++ [g] | none => gpus
  match amd with | some g => gpus ++ [g] | none => gpus

/-! ## Hardware selection (`Selector.SelectHardware`,
src/internal/hardware/selector.go lines 266-323) -/

/-- The selector's error values (`ErrNoHardware`,
`ErrDeviceNotFound`, `ErrNoSuitableHardware`). -/
inductive SelErr where
  | noHardware : SelErr
  | deviceNotFound : SelErr
  | noSuitableHardware : SelErr
  deriving Repr, DecidableEq

/-- `Selector.SelectHardware(deviceType, deviceID)`: explicit
device-type selection, then `"none"` forcing CPU, then the configured
preference (falling through to auto selection when unavailable), then
the fixed priority order NVIDIA > Intel > AMD > CPU.  Go `for` loops
returning the first match become `List.find?`. -/
def selectHardware (availableGPUs : List HardwareInfo) (preferred : HardwareType)
    (deviceType : String) (deviceID : Int) : Except SelErr HardwareInfo :=
  if availableGPUs.length = 0 then .error .noHardware
  else if deviceType ≠ "auto" ∧ deviceType ≠ "none" ∧ deviceType ≠ "" then
    match availableGPUs.find? (fun g =>
        g.hwType.str == deviceType && g.deviceID == deviceID && g.available) with
    | some g => .ok g
    | none => .error .deviceNotFound
  else
    match (if deviceType = "none" then
        availableGPUs.find? (fun g => g.hwType == .cpu) else none) with
    | some g => .ok g
    | none =>
      match (if preferred ≠ HardwareType.auto then
          availableGPUs.find? (fun g => g.hwType == preferred && g.available)
        else none) with
      | some g => .ok g
      | none =>
        match [HardwareType.nvidia, .intel, .amd, .cpu].findSome?
            (fun ht => availableGPUs.find? (fun g => g.hwType == ht && g.available)) with
        | some g => .ok g
        | none => .error .noSuitableHardware

/-! ## Transcoding profiles (`internal/transcode/profiles.go`) -/

/-- `types.TranscodingProfile`.  `hardwareAccel` is unused by the
command builders below; it keeps its zero/auto value. -/
structure TranscodingProfile where
  name : String
  videoCodec : String
  audioCodec : String
  hardwareAccel : HardwareType
  videoBitrate : String
  audioBitrate : String
  container : String
  extraArgs : List String
  deriving Repr, DecidableEq

/-- The common streaming arguments both `CreateProfile`
(profiles.go lines 38-52) and `NewTranscodingProfile`
(profiles.go lines 159-173) attach — the two literals in the source
are identical. -/
def commonStreamArgs : List String :=
  ["-err_detect", "ignore_err",
   "-fflags", "+genpts+discardcorrupt+nobuffer",
   "-analyzeduration", "10M",
   "-probesize", "10M",
   "-max_delay", "5000000",
   "-reconnect", "1",
   "-reconnect_at_eof", "1",
   "-reconnect_streamed", "1",
   "-reconnect_delay_max", "5",
   "-f", "mpegts",
   "-mpegts_copyts", "1",
   "-avoid_negative_ts", "disabled",
   "-max_muxing_queue_size", "1024"]

/-- `CreateProfile` (profiles.go lines 26-115): the common args plus
codec-specific argument groups chosen by `switch videoCodec` /
`switch audioCodec` (Go string switches become if-chains). -/
def CreateProfile (videoCodec audioCodec videoBitrate audioBitrate : String) :
    TranscodingProfile :=
  let extraArgs := commonStreamArgs
  let extraArgs := extraArgs ++
    (if videoCodec = "mpeg2" then
      ["-c:v", "mpeg2video", "-b:v", videoBitrate, "-maxrate", "8000k",
       "-bufsize", "4000k", "-g", "15", "-bf", "2", "-pix_fmt", "yuv420p"]
    else if videoCodec = "h264" then
      ["-c:v", "libx264", "-b:v", videoBitrate, "-preset", "medium",
       "-profile:v", "high", "-level", "4.1", "-pix_fmt", "yuv420p"]
    else if videoCodec = "h265" then
      ["-c:v", "libx265", "-b:v", videoBitrate, "-preset", "medium",
       "-pix_fmt", "yuv420p"]
    else if videoCodec = "copy" then ["-c:v", "copy"]
    else [])
  let extraArgs := extraArgs ++
    (if audioCodec = "mp2" then
      ["-c:a", "mp2", "-b:a", audioBitrate, "-ar", "48000", "-ac", "2"]
    else if audioCodec = "mp3" then
      ["-c:a", "libmp3lame", "-b:a", audioBitrate, "-ar", "44100", "-ac", "2"]
    else if audioCodec = "aac" then
      ["-c:a", "aac", "-b:a", audioBitrate, "-ar", "48000", "-ac", "2"]
    else if audioCodec = "copy" then ["-c:a", "copy"]
    else [])
  { name := "custom", videoCodec := videoCodec, audioCodec := audioCodec
    hardwareAccel := .auto, videoBitrate := videoBitrate
    audioBitrate := audioBitrate, container := "mpegts", extraArgs := extraArgs }

/-- The transcode-mode branch of `NewTranscodingProfile`
(profiles.go lines 134-177): bitrates are resolved upstream by the
quality mapper and passed in; per the source note, no codec arguments
are placed in `ExtraArgs` because the hardware selector supplies
them. -/
def newTranscodingProfile (videoCodec audioCodec videoBitrate audioBitrate : String) :
    TranscodingProfile :=
  { name := "stream", videoCodec := videoCodec, audioCodec := audioCodec
    hardwareAccel := .auto, videoBitrate := videoBitrate
    audioBitrate := audioBitrate, container := "mpegts"
    extraArgs := commonStreamArgs }

/-! ## FFmpeg argument generation (`Selector.GetFFmpegArgs` and
helpers, selector.go lines 326-501) -/

/-- Model of `strings.Contains s pat` via `String.splitOn`: the split
has more than one part exactly when `pat` occurs in `s` (all uses have
a fixed nonempty `pat`). -/
def strContains (s pat : String) : Bool :=
  (s.splitOn pat).length != 1

/-- `getNVIDIAVideoArgs` (selector.go lines 373-396). -/
def getNVIDIAVideoArgs (hw : HardwareInfo) (videoCodec : String) : List String :=
  let args := if hw.deviceID ≥ 0 then ["-gpu", toString hw.deviceID] else []
  args ++
    (if videoCodec = "h264" then
      ["-c:v", "h264_nvenc", "-preset", "p4", "-tune", "hq", "-rc", "vbr",
       "-rc-lookahead", "20", "-b_ref_mode", "middle"]
    else if videoCodec = "h265" ∨ videoCodec = "hevc" then
      ["-c:v", "hevc_nvenc", "-preset", "p4", "-tune", "hq", "-rc", "vbr"]
    else [])

/-- `getIntelVideoArgs` (selector.go lines 399-415). -/
def getIntelVideoArgs (hw : HardwareInfo) (videoCodec : String) : List String :=
  let args := if hw.devicePath ≠ "" then
      ["-init_hw_device", "vaapi=va:" ++ hw.devicePath, "-filter_hw_device", "va"]
    else []
  args ++
    (if videoCodec = "h264" then ["-c:v", "h264_vaapi", "-vaapi_device", hw.devicePath]
    else if videoCodec = "h265" ∨ videoCodec = "hevc" then
      ["-c:v", "hevc_vaapi", "-vaapi_device", hw.devicePath]
    else [])

/-- `getAMDVAAPIArgs` (selector.go lines 426-442). -/
def getAMDVAAPIArgs (hw : HardwareInfo) (videoCodec : String) : List String :=
  let args := if hw.devicePath ≠ "" then
      ["-init_hw_device", "vaapi=va:" ++ hw.devicePath, "-filter_hw_device", "va"]
    else []
  args ++
    (if videoCodec = "h264" then ["-c:v", "h264_vaapi", "-vaapi_device", hw.devicePath]
    else if videoCodec = "h265" ∨ videoCodec = "hevc" then
      ["-c:v", "hevc_vaapi", "-vaapi_device", hw.devicePath]
    else [])

/-- `getAMDAMFArgs` (selector.go lines 445-458). -/
def getAMDAMFArgs (videoCodec : String) : List String :=
  if videoCodec = "h264" then
    ["-c:v", "h264_amf", "-usage", "transcoding", "-quality", "balanced"]
  else if videoCodec = "h265" ∨ videoCodec = "hevc" then
    ["-c:v", "hevc_amf", "-usage", "transcoding", "-quality", "balanced"]
  else []

/-- `getAMDVideoArgs` (selector.go lines 418-423). -/
def getAMDVideoArgs (hw : HardwareInfo) (videoCodec : String) : List String :=
  if strContains hw.devicePath "/dev/dri" then getAMDVAAPIArgs hw videoCodec
  else getAMDAMFArgs videoCodec

/-- `getCPUVideoArgs` (selector.go lines 461-470). -/
def getCPUVideoArgs (videoCodec : String) : List String :=
  if videoCodec = "h264" then ["-c:v", "libx264"]
  else if videoCodec = "h265" ∨ videoCodec = "hevc" then ["-c:v", "libx265"]
  else []

/-- `getVideoCodecArgs` (selector.go lines 353-370); the Go `default`
branch also falls back to CPU arguments. -/
def getVideoCodecArgs (hw : HardwareInfo) (videoCodec : String) : List String :=
  if videoCodec = "copy" then ["-c:v", "copy"]
  else match hw.hwType with
  | .nvidia => getNVIDIAVideoArgs hw videoCodec
  | .intel => getIntelVideoArgs hw videoCodec
  | .amd => getAMDVideoArgs hw videoCodec
  | .cpu => getCPUVideoArgs videoCodec
  | .auto => getCPUVideoArgs videoCodec

/-- `getAudioCodecArgs` (selector.go lines 473-484). -/
def getAudioCodecArgs (audioCodec : String) : List String :=
  if audioCodec = "aac" then ["-c:a", "aac"]
  else if audioCodec = "mp3" then ["-c:a", "libmp3lame"]
  else if audioCodec = "copy" then ["-c:a", "copy"]
  else []

/-- `getBitrateArgs` (selector.go lines 487-501). -/
def getBitrateArgs (profile : TranscodingProfile) : List String :=
  (if profile.videoBitrate ≠ "" ∧ profile.videoBitrate ≠ "adaptive" ∧
      profile.videoCodec ≠ "copy" then ["-b:v", profile.videoBitrate] else []) ++
  (if profile.audioBitrate ≠ "" ∧ profile.audioBitrate ≠ "adaptive" ∧
      profile.audioCodec ≠ "copy" then ["-b:a", profile.audioBitrate] else [])

/-- `Selector.GetFFmpegArgs` (selector.go lines 326-350). -/
def getFFmpegArgs (hw : HardwareInfo) (profile : TranscodingProfile) : List String :=
  getVideoCodecArgs hw profile.videoCodec ++
  getAudioCodecArgs profile.audioCodec ++
  getBitrateArgs profile ++
  (if profile.container ≠ "" then ["-f", profile.container] else []) ++
  profile.extraArgs

/-! ## FFmpeg command assembly (`FFmpegTranscoder.buildCommand`,
src/unnamed/part_009 lines 221-286) -/

/-- The scan of `buildCommand` lines 235-250: walk the hardware args
with a one-slot lookahead, routing `-c:v`/`-c:a` (with their values)
and the three device flags (with their values) into `codecArgs` and
`deviceArgs`; everything else goes to `codecArgs`.  A recognised flag
in final position without a value is dropped, exactly as the Go
`i+1 < len` guard does. -/
def splitHardwareArgs : List String → List String × List String
  | [] => ([], [])
  | a :: rest =>
    if a = "-c:v" ∨ a = "-c:a" then
      match rest with
      | v :: rest2 =>
        let (c, d) := splitHardwareArgs rest2
        (a :: v :: c, d)
      | [] => ([], [])
    else if a = "-vaapi_device" ∨ a = "-init_hw_device" ∨ a = "-filter_hw_device" then
      match rest with
      | v :: rest2 =>
        let (c, d) := splitHardwareArgs rest2
        (c, a :: v :: d)
      | [] => ([], [])
    else
      let (c, d) := splitHardwareArgs rest
      (a :: c, d)

/-- `FFmpegTranscoder.buildCommand` (part_009 lines 221-286): global
flags, then the device args extracted from the selector output, input
options and the input URL, the remaining selector args, the profile's
extra args, a `-f container` only when `ExtraArgs` has no `-f`
(lookup-before-append), and `pipe:1`. -/
def buildCommand (hw : HardwareInfo) (profile : TranscodingProfile)
    (inputURL : String) : List String :=
  let args := ["-hide_banner", "-loglevel", "warning", "-stats"]
  let hardwareArgs := getFFmpegArgs hw profile
  let codecArgs := (splitHardwareArgs hardwareArgs).1
  let deviceArgs := (splitHardwareArgs hardwareArgs).2
  let args := args ++ deviceArgs
  let args := args ++
    ["-fflags", "+genpts+discardcorrupt+nobuffer", "-err_detect", "ignore_err",
     "-i", inputURL]
  let args := args ++ codecArgs
  let args := args ++ profile.extraArgs
  let hasFormat := profile.extraArgs.contains "-f"
  let args := if hasFormat = false then args ++ ["-f", profile.container] else args
  args ++ ["pipe:1"]

/-! ## Transcoder shutdown (`FFmpegTranscoder.Close`,
src/unnamed/part_009 lines 304-350) -/

/-- Outcome of `cmd.Wait()`: nil, an `exec.ExitError` with an exit
code, or some other error. -/
inductive WaitRes where
  | okW : WaitRes
  | exitCode (code : Int) : WaitRes
  | otherErr (e : String) : WaitRes
  deriving Repr, DecidableEq

/-- The environment of one `Close` call: which resources were opened
(`stdin != nil`, `cmd != nil && cmd.Process != nil`, `stdout != nil`,
`stderr != nil`) and what each close/wait step returns. -/
structure CloseScenario where
  hasStdin : Bool
  stdinErr : Option String
  hasProc : Bool
  waitRes : WaitRes
  hasStdout : Bool
  stdoutErr : Option String
  hasStderr : Bool
  stderrErr : Option String
  deriving Repr, DecidableEq

/-- The externally visible actions of `Close`, in order. -/
inductive CloseStep where
  | closeStdin : CloseStep
  | waitProc : CloseStep
  | closeStdout : CloseStep
  | closeStderr : CloseStep
  deriving Repr, DecidableEq

/-- Result of a `Close` call: the returned error (`none` = nil,
`some l` = `CloseError{Errors: l}`), the steps performed in order, and
the `closed` flag afterwards. -/
structure CloseResult where
  errs : Option (List String)
  steps : List CloseStep
  closedAfter : Bool
  deriving Repr, DecidableEq

/-- `FFmpegTranscoder.Close` (part_009 lines 304-350): return nil if
already closed; otherwise mark closed, close stdin, wait for the
process (an `exec.ExitError` with code 255 is ignored as the expected
streaming termination), close stdout, close stderr, appending each
error to `errs`; return `CloseError{errs}` when any collected, else
nil. -/
def closeTranscoder (closed : Bool) (s : CloseScenario) : CloseResult :=
  if closed then { errs := none, steps := [], closedAfter := true }
  else
    let acc : List String × List CloseStep := ([], [])
    let acc := if s.hasStdin then
        (match s.stdinErr with
          | some e => acc.1 ++ ["failed to close stdin: " ++ e]
          | none => acc.1,
         acc.2 ++ [CloseStep.closeStdin])
      else acc
    let acc := if s.hasProc then
        (match s.waitRes with
          | .okW => acc.1
          | .exitCode c =>
            if c ≠ 255 then acc.1 ++ ["FFmpeg process error: exit status " ++ toString c]
            else acc.1
          | .otherErr e => acc.1 ++ ["FFmpeg process error: " ++ e],
         acc.2 ++ [CloseStep.waitProc])
      else acc
    let acc := if s.hasStdout then
        (match s.stdoutErr with
          | some e => acc.1 ++ ["failed to close stdout: " ++ e]
          | none => acc.1,
         acc.2 ++ [CloseStep.closeStdout])
      else acc
    let acc := if s.hasStderr then
        (match s.stderrErr with
          | some e => acc.1 ++ ["failed to close stderr: " ++ e]
          | none => acc.1,
         acc.2 ++ [CloseStep.closeStderr])
      else acc
    { errs := if acc.1.length > 0 then some acc.1 else none
      steps := acc.2, closedAfter := true }

/-- Modelled from the spec (for comparison with `closeTranscoder`):
"multiple close-phase errors (stdin, wait, stdout, stderr) are
aggregated into one reported error", with the expected exit code 255
treated as success — the list of non-ignorable close-phase errors in
step order. -/
def closeErrorsSpec (s : CloseScenario) : List String :=
  (if s.hasStdin then
    (match s.stdinErr with
      | some e => ["failed to close stdin: " ++ e]
      | none => [])
  else []) ++
  (if s.hasProc then
    (match s.waitRes with
      | .okW => []
      | .exitCode c =>
        if c ≠ 255 then ["FFmpeg process error: exit status " ++ toString c] else []
      | .otherErr e => ["FFmpeg process error: " ++ e])
  else []) ++
  (if s.hasStdout then
    (match s.stdoutErr with
      | some e => ["failed to close stdout: " ++ e]
      | none => [])
  else []) ++
  (if s.hasStderr then
    (match s.stderrErr with
      | some e => ["failed to close stderr: " ++ e]
      | none => [])
  else [])

/-- A detected NVIDIA device as `CheckNVIDIA` would return it
(part_005 lines 109-114): UUID device path, capabilities from the
synthetic encode tests, available. -/
def nvidiaDev : HardwareInfo :=
  { hwType := .nvidia, devicePath := "GPU-abc", deviceID := 0, deviceName := ""
    capabilities := ["h264", "h265"], available := true }

/-- The codec/bitrate/container flag names whose duplication C6 is
about. -/
def watchedFlags : List String :=
  ["-c:v", "-c:a", "-b:v", "-b:a", "-f",
   "-vaapi_device", "-init_hw_device", "-filter_hw_device"]

/-! ## Lemmas: the copy primitive -/

theorem copyAt_length (s : List Nat) : ∀ d pos, (copyAt d pos s).length = d.length := by
  induction s with
  | nil => intro d pos; rfl
  | cons x s ih => intro d pos; simp [copyAt, ih]

theorem copyAt_getElem?_lt (s : List Nat) :
    ∀ d pos j, j < pos → (copyAt d pos s)[j]? = d[j]? := by
  induction s with
  | nil => intro d pos j _; rfl
  | cons x s ih =>
    intro d pos j hj
    rw [copyAt, ih _ _ _ (by omega), List.getElem?_set_ne (by omega)]

theorem copyAt_getElem?_ge (s : List Nat) :
    ∀ d pos j, pos + s.length ≤ j → (copyAt d pos s)[j]? = d[j]? := by
  induction s with
  | nil => intro d pos j _; rfl
  | cons x s ih =>
    intro d pos j hj
    simp only [List.length_cons] at hj
    rw [copyAt, ih _ _ _ (by omega), List.getElem?_set_ne (by omega)]

theorem copyAt_getElem?_in (s : List Nat) :
    ∀ d pos i, i < s.length → pos + s.length ≤ d.length →
      (copyAt d pos s)[pos + i]? = s[i]? := by
  induction s with
  | nil => intro d pos i hi _; simp at hi
  | cons x s ih =>
    intro d pos i hi hlen
    simp only [List.length_cons] at hi hlen
    rw [copyAt]
    match i with
    | 0 =>
      rw [copyAt_getElem?_lt s _ _ _ (by omega), Nat.add_zero,
        List.getElem?_set_eq (by omega), List.getElem?_cons_zero]
    | i + 1 =>
      have harith : pos + (i + 1) = (pos + 1) + i := by omega
      rw [harith, ih _ _ _ (by omega) (by simp; omega), List.getElem?_cons_succ]

/-! ## Lemmas: modular cursor arithmetic -/

theorem mod_two_cases (a n : Nat) (h : a < 2 * n) :
    a % n = if a < n then a else a - n := by
  split
  · exact Nat.mod_eq_of_lt ‹_›
  · have h3 : a - n < n := by omega
    have h4 : a = a - n + n := by omega
    calc a % n = (a - n + n) % n := by rw [← h4]
    _ = (a - n) % n := Nat.add_mod_right _ _
    _ = a - n := Nat.mod_eq_of_lt h3

theorem addMod_inj {n a t₁ t₂ : Nat} (h₁ : t₁ < n) (h₂ : t₂ < n)
    (h : (a + t₁) % n = (a + t₂) % n) : t₁ = t₂ :=
  Nat.ModEq.eq_of_lt_of_lt (Nat.ModEq.add_left_cancel' a h) h₁ h₂

/-! ## Lemmas: the wrap-around chunk loops -/

theorem writeChunksF_nil (n size : Nat) (data : List Nat) (pos : Nat) (chunk : List Nat)
    (h : chunk.length = 0) : writeChunksF n size data pos chunk = some (data, pos, 0) := by
  cases n <;> simp [writeChunksF, h]

theorem writeChunksF_spec (n : Nat) :
    ∀ chunk : List Nat, chunk.length ≤ n → ∀ size data writePos,
    writePos < size → data.length = size → chunk.length ≤ size →
    ∃ d k, writeChunksF n size data writePos chunk
        = some (d, (writePos + chunk.length) % size, k) ∧
      d.length = size ∧ k ≤ 2 ∧ (writePos + chunk.length ≤ size → k ≤ 1) ∧
      (∀ i, i < chunk.length → d[(writePos + i) % size]? = chunk[i]?) ∧
      (∀ j, j < size → (∀ i, i < chunk.length → j ≠ (writePos + i) % size) →
        d[j]? = data[j]?) := by
  induction n with
  | zero =>
    intro chunk hn size data writePos hw hd _
    have hc : chunk.length = 0 := by omega
    refine ⟨data, 0, ?_, hd, by omega, by omega, by omega, by intros; rfl⟩
    rw [writeChunksF, if_pos hc, hc, Nat.add_zero, Nat.mod_eq_of_lt hw]
  | succ n ih =>
    intro chunk hn size data writePos hw hd hsz
    by_cases hc0 : chunk.length = 0
    · refine ⟨data, 0, ?_, hd, by omega, by omega, by omega, by intros; rfl⟩
      rw [writeChunksF, if_pos hc0, hc0, Nat.add_zero, Nat.mod_eq_of_lt hw]
    · have hsize0 : 0 < size := by omega
      set c := min (size - writePos) chunk.length with hc
      have hc1 : 1 ≤ c := by omega
      have hcle : c ≤ chunk.length := by omega
      have hwc : writePos + c ≤ size := by omega
      set data1 := copyAt data writePos (chunk.take c) with hdata1
      set pos1 := (writePos + c) % size with hpos1
      have hpos1lt : pos1 < size := Nat.mod_lt _ hsize0
      have hd1 : data1.length = size := by rw [hdata1, copyAt_length, hd]
      have hlen' : (chunk.drop c).length ≤ n := by simp; omega
      obtain ⟨d, k, heq, hdlen, hk2, hk1, hin, hout⟩ :=
        ih (chunk.drop c) hlen' size data1 pos1 hpos1lt hd1 (by simp; omega)
      -- final write position of the recursive call
      have hposeq : (pos1 + (chunk.drop c).length) % size
          = (writePos + chunk.length) % size := by
        rw [List.length_drop, hpos1, Nat.mod_add_mod]
        congr 1
        omega
      refine ⟨d, k + 1, ?_, hdlen, ?_, ?_, ?_, ?_⟩
      · rw [writeChunksF, if_neg hc0, if_pos hw]
        simp only [← hc, ← hdata1, ← hpos1, heq, hposeq]
      · -- k + 1 ≤ 2: if the recursive chunk is empty, k = 0; otherwise the
        -- recursive call starts at position 0 and stays contiguous, so k ≤ 1.
        by_cases hrec0 : (chunk.drop c).length = 0
        · rw [writeChunksF_nil _ _ _ _ _ hrec0] at heq
          simp only [Option.some.injEq, Prod.mk.injEq] at heq
          omega
        · have hcc : c = size - writePos := by
            by_contra hne
            have : c = chunk.length := by omega
            simp [this] at hrec0
          have : pos1 = 0 := by
            rw [hpos1, hcc]
            have : writePos + (size - writePos) = size := by omega
            rw [this, Nat.mod_self]
          have := hk1 (by rw [this]; simp; omega)
          omega
      · intro hfit
        -- no wrap: the whole chunk fits contiguously, so c = chunk.length
        have : c = chunk.length := by omega
        have hrec0 : (chunk.drop c).length = 0 := by simp [this]
        rw [writeChunksF_nil _ _ _ _ _ hrec0] at heq
        simp only [Option.some.injEq, Prod.mk.injEq] at heq
        omega
      · -- written positions hold the chunk bytes
        intro i hi
        by_cases hic : i < c
        · have hwi : writePos + i < size := by omega
          rw [Nat.mod_eq_of_lt hwi]
          have huntouched : d[writePos + i]? = data1[writePos + i]? := by
            apply hout _ hwi
            intro i' hi' habs
            rw [List.length_drop] at hi'
            have : (writePos + i) % size = (writePos + i) := Nat.mod_eq_of_lt hwi
            rw [hpos1, Nat.mod_add_mod, Nat.add_assoc] at habs
            have := @addMod_inj size writePos i (c + i')
              (by omega) (by omega) (by rw [← habs, this])
            omega
          rw [huntouched, hdata1,
            copyAt_getElem?_in _ _ _ _ (by simp; omega) (by simp; omega),
            List.getElem?_take]
          simp [hic]
        · have hi' : i - c < (chunk.drop c).length := by simp; omega
          have harith : (writePos + i) % size = (pos1 + (i - c)) % size := by
            rw [hpos1, Nat.mod_add_mod]
            congr 1
            omega
          rw [harith, hin _ hi', List.getElem?_drop]
          congr 1
          omega
      · -- untouched positions keep their old bytes
        intro j hj hmiss
        have h1 : d[j]? = data1[j]? := by
          apply hout _ hj
          intro i' hi'
          rw [List.length_drop] at hi'
          rw [hpos1, Nat.mod_add_mod, Nat.add_assoc]
          exact hmiss (c + i') (by omega)
        rw [h1, hdata1]
        by_cases hjlt : j < writePos
        · exact copyAt_getElem?_lt _ _ _ _ hjlt
        · apply copyAt_getElem?_ge
          simp only [List.length_take]
          by_contra habs
          have hji : j - writePos < c := by omega
          have : j = writePos + (j - writePos) := by omega
          exact hmiss (j - writePos) (by omega)
            (by rw [Nat.mod_eq_of_lt (by omega), ← this])

theorem readChunksF_nil (n size : Nat) (data : List Nat) (pos : Nat)
    (h : (0 : Nat) = 0) : readChunksF n size data pos 0 = some ([], pos, 0) := by
  cases n <;> simp [readChunksF]

theorem readChunksF_spec (n : Nat) :
    ∀ toRead, toRead ≤ n → ∀ size data readPos,
    readPos < size → data.length = size → toRead ≤ size →
    ∃ bytes k, readChunksF n size data readPos toRead
        = some (bytes, (readPos + toRead) % size, k) ∧
      bytes.length = toRead ∧ k ≤ 2 ∧ (readPos + toRead ≤ size → k ≤ 1) ∧
      (∀ i, i < toRead → bytes[i]? = data[(readPos + i) % size]?) := by
  induction n with
  | zero =>
    intro toRead hn size data readPos hr hd _
    have hc : toRead = 0 := by omega
    subst hc
    refine ⟨[], 0, ?_, rfl, by omega, by omega, by omega⟩
    rw [readChunksF, if_pos rfl, Nat.add_zero, Nat.mod_eq_of_lt hr]
  | succ n ih =>
    intro toRead hn size data readPos hr hd hsz
    by_cases hc0 : toRead = 0
    · subst hc0
      refine ⟨[], 0, ?_, rfl, by omega, by omega, by omega⟩
      rw [readChunksF, if_pos rfl, Nat.add_zero, Nat.mod_eq_of_lt hr]
    · have hsize0 : 0 < size := by omega
      set c := min (size - readPos) toRead with hc
      have hc1 : 1 ≤ c := by omega
      have hcle : c ≤ toRead := by omega
      have hrc : readPos + c ≤ size := by omega
      set bytes1 := (data.drop readPos).take c with hbytes1
      set pos1 := (readPos + c) % size with hpos1
      have hpos1lt : pos1 < size := Nat.mod_lt _ hsize0
      have hb1len : bytes1.length = c := by
        rw [hbytes1, List.length_take, List.length_drop, hd]
        omega
      obtain ⟨rest, k, heq, hrlen, hk2, hk1, hin⟩ :=
        ih (toRead - c) (by omega) size data pos1 hpos1lt hd (by omega)
      have hposeq : (pos1 + (toRead - c)) % size = (readPos + toRead) % size := by
        rw [hpos1, Nat.mod_add_mod]
        congr 1
        omega
      refine ⟨bytes1 ++ rest, k + 1, ?_, ?_, ?_, ?_, ?_⟩
      · rw [readChunksF, if_neg hc0, if_pos hr]
        simp only [← hc, ← hbytes1, ← hpos1, heq, hposeq]
      · rw [List.length_append, hb1len, hrlen]
        omega
      · by_cases hrec0 : toRead - c = 0
        · rw [hrec0, readChunksF_nil _ _ _ _ rfl] at heq
          simp only [Option.some.injEq, Prod.mk.injEq] at heq
          omega
        · have hcc : c = size - readPos := by omega
          have hp0 : pos1 = 0 := by
            rw [hpos1, hcc]
            have : readPos + (size - readPos) = size := by omega
            rw [this, Nat.mod_self]
          have := hk1 (by omega)
          omega
      · intro hfit
        have hcc : c = toRead := by omega
        have hrec0 : toRead - c = 0 := by omega
        rw [hrec0, readChunksF_nil _ _ _ _ rfl] at heq
        simp only [Option.some.injEq, Prod.mk.injEq] at heq
        omega
      · intro i hi
        by_cases hic : i < c
        · have hwi : readPos + i < size := by omega
          rw [List.getElem?_append, hb1len, if_pos hic, hbytes1, List.getElem?_take,
            if_pos hic, List.getElem?_drop, Nat.mod_eq_of_lt hwi]
        · have harith : (readPos + i) % size = (pos1 + (i - c)) % size := by
            rw [hpos1, Nat.mod_add_mod]
            congr 1
            omega
          rw [List.getElem?_append, hb1len, if_neg hic, harith]
          exact hin _ (by omega)

/-! ## Lemmas: `Available`, `Free` and the cursors -/

theorem available_lt (b : CircularBuffer) (hw : b.writePos < b.size)
    (hr : b.readPos < b.size) : b.Available < b.size := by
  rw [CircularBuffer.Available]
  split <;> omega

theorem writePos_mod (b : CircularBuffer) (hw : b.writePos < b.size)
    (hr : b.readPos < b.size) :
    b.writePos = (b.readPos + b.Available) % b.size := by
  rw [CircularBuffer.Available]
  by_cases h : b.readPos ≤ b.writePos
  · rw [if_pos h]
    have harith : b.readPos + (b.writePos - b.readPos) = b.writePos := by omega
    rw [harith, Nat.mod_eq_of_lt hw]
  · rw [if_neg h]
    have harith : b.readPos + (b.size - b.readPos + b.writePos)
        = b.size + b.writePos := by omega
    rw [harith, Nat.add_mod_left, Nat.mod_eq_of_lt hw]

theorem avail_eq_of (size w r t : Nat) (hr : r < size) (ht : t < size)
    (hw : w = (r + t) % size) :
    (if r ≤ w then w - r else size - r + w) = t := by
  subst hw
  have hm := mod_two_cases (r + t) size (by omega)
  by_cases hcase : r + t < size
  · rw [hm, if_pos hcase, if_pos (by omega)]
    omega
  · rw [hm, if_neg hcase, if_neg (by omega)]
    omega

theorem map_range_getD (q : List Nat) :
    (List.range q.length).map (fun i => q.getD i 0) = q := by
  apply List.ext_getElem
  · simp
  · intro i h1 h2
    simp only [List.getElem_map, List.getElem_range]
    exact q.getD_eq_getElem 0 h2

/-! ## Lemmas: effect of one write/read batch on the unread contents -/

theorem batch_write (b : CircularBuffer) (q d : List Nat) (w k : Nat)
    (hWF : WF b) (hq : q.length ≤ b.Free)
    (hres : writeChunks b.size b.data b.writePos q = some (d, w, k)) :
    WF (afterWrite b d w q.length) ∧
    contents (afterWrite b d w q.length) = contents b ++ q ∧
    k ≤ 2 ∧
    (afterWrite b d w q.length).Available = b.Available + q.length := by
  obtain ⟨hd, hw, hr, htally⟩ := hWF
  have hsize0 : 0 < b.size := by omega
  have hAlt : b.Available < b.size := available_lt b hw hr
  have hfq : b.Free = b.size - b.Available - 1 := rfl
  have hAL : b.Available + q.length < b.size := by omega
  have hqsz : q.length ≤ b.size := by omega
  obtain ⟨d0, k0, heq, hdlen, hk2, _, hin, hout⟩ :=
    writeChunksF_spec q.length q le_rfl b.size b.data b.writePos hw hd hqsz
  rw [writeChunks, heq] at hres
  simp only [Option.some.injEq, Prod.mk.injEq] at hres
  obtain ⟨hd0, hw0, hk0⟩ := hres
  rw [hd0] at hdlen hin hout
  rw [hk0] at hk2
  have hwmod : w = (b.readPos + (b.Available + q.length)) % b.size := by
    rw [← hw0, writePos_mod b hw hr, Nat.mod_add_mod, Nat.add_assoc]
  have hAvail' : (afterWrite b d w q.length).Available = b.Available + q.length := by
    show (if b.readPos ≤ w then w - b.readPos else b.size - b.readPos + w)
      = b.Available + q.length
    exact avail_eq_of b.size w b.readPos _ hr hAL hwmod
  have hshift : ∀ j : Nat, (b.writePos + j) % b.size
      = (b.readPos + (b.Available + j)) % b.size := by
    intro j
    rw [writePos_mod b hw hr, Nat.mod_add_mod, Nat.add_assoc]
  refine ⟨⟨hdlen, by rw [hwmod]; exact Nat.mod_lt _ hsize0, hr, ?_⟩, ?_, hk2, hAvail'⟩
  · show b.bytesWritten + q.length = b.bytesRead + (afterWrite b d w q.length).Available
    rw [hAvail']
    omega
  · show (List.range (afterWrite b d w q.length).Available).map
        (fun i => d.getD ((b.readPos + i) % b.size) 0)
      = contents b ++ q
    rw [hAvail', List.range_add, List.map_append, List.map_map]
    congr 1
    · -- old contents survive the write untouched
      apply List.map_congr_left
      intro i hi
      rw [List.mem_range] at hi
      have hneq : ∀ i', i' < q.length →
          (b.readPos + i) % b.size ≠ (b.writePos + i') % b.size := by
        intro i' hi' habs
        rw [hshift i'] at habs
        have := @addMod_inj b.size b.readPos i (b.Available + i')
          (by omega) (by omega) habs
        omega
      have hsame := hout _ (Nat.mod_lt (b.readPos + i) hsize0) hneq
      rw [List.getD_eq_getElem?_getD, List.getD_eq_getElem?_getD, hsame]
    · -- the written chunk appears after the old contents
      have hstep : ∀ i, i ∈ List.range q.length →
          ((fun i => d.getD ((b.readPos + i) % b.size) 0) ∘ fun i => b.Available + i) i
            = q.getD i 0 := by
        intro i hi
        rw [List.mem_range] at hi
        simp only [Function.comp_apply]
        rw [← hshift i, List.getD_eq_getElem?_getD, List.getD_eq_getElem?_getD,
          hin i hi]
      rw [List.map_congr_left hstep]
      exact map_range_getD q

theorem batch_read (b : CircularBuffer) (t : Nat) (bytes : List Nat) (rp k : Nat)
    (hWF : WF b) (ht : t ≤ b.Available)
    (hres : readChunks b.size b.data b.readPos t = some (bytes, rp, k)) :
    WF (afterRead b rp t) ∧
    bytes = (contents b).take t ∧
    contents (afterRead b rp t) = (contents b).drop t ∧
    k ≤ 2 ∧
    (afterRead b rp t).Available = b.Available - t := by
  obtain ⟨hd, hw, hr, htally⟩ := hWF
  have hsize0 : 0 < b.size := by omega
  have hAlt : b.Available < b.size := available_lt b hw hr
  have htsz : t ≤ b.size := by omega
  obtain ⟨bytes0, k0, heq, hblen, hk2, _, hbin⟩ :=
    readChunksF_spec t t le_rfl b.size b.data b.readPos hr hd htsz
  rw [readChunks, heq] at hres
  simp only [Option.some.injEq, Prod.mk.injEq] at hres
  obtain ⟨hb0, hrp0, hk0⟩ := hres
  rw [hb0] at hblen hbin
  rw [hk0] at hk2
  have hrplt : rp < b.size := by rw [← hrp0]; exact Nat.mod_lt _ hsize0
  have hshift : ∀ j : Nat, (rp + j) % b.size = (b.readPos + (t + j)) % b.size := by
    intro j
    rw [← hrp0, Nat.mod_add_mod, Nat.add_assoc]
  have hwmod : b.writePos = (rp + (b.Available - t)) % b.size := by
    rw [hshift, writePos_mod b hw hr]
    congr 1
    omega
  have hAvail' : (afterRead b rp t).Available = b.Available - t := by
    show (if rp ≤ b.writePos then b.writePos - rp else b.size - rp + b.writePos)
      = b.Available - t
    exact avail_eq_of b.size b.writePos rp _ hrplt (by omega) hwmod
  have hcb : contents b
      = (List.range b.Available).map
          (fun i => b.data.getD ((b.readPos + i) % b.size) 0) := rfl
  refine ⟨⟨hd, hw, hrplt, ?_⟩, ?_, ?_, hk2, hAvail'⟩
  · show b.bytesWritten = b.bytesRead + t + (afterRead b rp t).Available
    rw [hAvail']
    omega
  · -- the bytes returned are the oldest `t` unread bytes
    apply List.ext_getElem
    · rw [hblen, List.length_take, hcb, List.length_map, List.length_range]
      omega
    · intro i h1 h2
      have hit : i < t := by omega
      have hiA : i < b.Available := by omega
      have hq : bytes[i]? = (List.take t (contents b))[i]? := by
        rw [List.getElem?_take, if_pos hit, hbin i hit, hcb]
        rw [List.getElem?_eq_getElem
          (show (b.readPos + i) % b.size < b.data.length by
            rw [hd]; exact Nat.mod_lt _ hsize0)]
        rw [List.getElem?_eq_getElem (by simpa using hiA)]
        simp only [List.getElem_map, List.getElem_range, Option.some.injEq]
        exact (b.data.getD_eq_getElem 0 _).symm
      rw [List.getElem?_eq_getElem h1, List.getElem?_eq_getElem h2] at hq
      exact Option.some_inj.mp hq
  · -- the remaining contents are the old contents with the prefix dropped
    show (List.range (afterRead b rp t).Available).map
        (fun i => b.data.getD ((rp + i) % b.size) 0)
      = (contents b).drop t
    rw [hAvail', hcb]
    have hranges : List.range b.Available
        = List.range t ++ (List.range (b.Available - t)).map (fun i => t + i) := by
      conv_lhs => rw [show b.Available = t + (b.Available - t) by omega]
      exact List.range_add t (b.Available - t)
    rw [hranges, List.map_append, List.map_map]
    have hdropped := List.drop_left
      ((List.range t).map (fun i => b.data.getD ((b.readPos + i) % b.size) 0))
      ((List.range (b.Available - t)).map
        ((fun i => b.data.getD ((b.readPos + i) % b.size) 0) ∘ fun i => t + i))
    rw [List.length_map, List.length_range] at hdropped
    rw [hdropped]
    apply List.map_congr_left
    intro i hi
    rw [List.mem_range] at hi
    simp only [Function.comp_apply]
    rw [hshift i]

/-! ## Lemmas: whole calls with no peer activity -/

theorem waitWhileFull_nil (b : CircularBuffer) :
    waitWhileFull b []
      = if b.Free = 0 ∧ b.closed = false then none else some (b, []) := by
  rw [waitWhileFull]

theorem waitWhileEmpty_nil (b : CircularBuffer) :
    waitWhileEmpty b []
      = if b.Available = 0 ∧ b.closed = false then none else some (b, []) := by
  rw [waitWhileEmpty]

theorem writeOuter_blocked (fuel : Nat) (b : CircularBuffer) (p : List Nat)
    (written : Nat) (hlt : written < p.length) (hfree : b.Free = 0)
    (hcl : b.closed = false) : writeOuter fuel b p written [] = none := by
  cases fuel with
  | zero => rfl
  | succ f =>
    rw [writeOuter, if_pos hlt, waitWhileFull_nil, if_pos ⟨hfree, hcl⟩]

theorem writeOuter_nil_spec (fuel : Nat) :
    ∀ b b' p written n k, WF b → written ≤ p.length →
    writeOuter fuel b p written [] = some (b', n, false, k) →
    n = p.length ∧ WF b' ∧ contents b' = contents b ++ p.drop written ∧
      b'.size = b.size ∧ b'.closed = b.closed ∧
      (written < p.length → k ≤ 2) ∧ (written = p.length → k = 0) := by
  induction fuel with
  | zero =>
    intro b b' p written n k _ _ h
    rw [writeOuter] at h
    simp at h
  | succ f ih =>
    intro b b' p written n k hWF hwle h
    rw [writeOuter] at h
    by_cases hlt : written < p.length
    · rw [if_pos hlt, waitWhileFull_nil] at h
      by_cases hblk : b.Free = 0 ∧ b.closed = false
      · rw [if_pos hblk] at h
        simp at h
      · rw [if_neg hblk] at h
        dsimp only at h
        by_cases hcl : b.closed = true
        · rw [if_pos hcl] at h
          simp at h
        · rw [if_neg hcl] at h
          have hclf : b.closed = false := by simpa using hcl
          have hfree : b.Free ≠ 0 := fun h0 => hblk ⟨h0, hclf⟩
          obtain ⟨hd, hwp, hrp, htally⟩ := hWF
          have hAlt : b.Available < b.size := available_lt b hwp hrp
          have hfub : b.Free = b.size - b.Available - 1 := rfl
          set toWrite := min (p.length - written) b.Free with htw
          set q : List Nat := (p.drop written).take toWrite with hqdef
          have hq : q.length = toWrite := by
            rw [hqdef]
            simp
            omega
          obtain ⟨d0, k0, heq0, _, _, _, _, _⟩ :=
            writeChunksF_spec q.length q le_rfl b.size b.data b.writePos hwp hd
              (by omega)
          obtain ⟨w0, hw0⟩ : ∃ w0, (b.writePos + q.length) % b.size = w0 := ⟨_, rfl⟩
          rw [hw0] at heq0
          have heq : writeChunks b.size b.data b.writePos q = some (d0, w0, k0) := by
            rw [writeChunks, heq0]
          rw [heq] at h
          dsimp only at h
          obtain ⟨hWF1, hcont1, hk0, hAv1⟩ :=
            batch_write b q d0 w0 k0 ⟨hd, hwp, hrp, htally⟩ (by omega) heq
          rw [hq] at hWF1 hcont1 hAv1
          rcases hrec : writeOuter f (afterWrite b d0 w0 toWrite) p
              (written + toWrite) [] with _ | ⟨b2, n2, e2, k2⟩
          · rw [hrec] at h
            simp at h
          · rw [hrec] at h
            cases e2 with
            | true => simp at h
            | false =>
              simp only [Option.some.injEq, Prod.mk.injEq, and_true, true_and] at h
              obtain ⟨hb2, hn2, hk2⟩ := h
              obtain ⟨hn, hWF2, hcont2, hsz2, hcl2, hkin, hkeq⟩ :=
                ih (afterWrite b d0 w0 toWrite) b2 p (written + toWrite) n2 k2
                  hWF1 (by omega) hrec
              have hszA : (afterWrite b d0 w0 toWrite).size = b.size := rfl
              have hclA : (afterWrite b d0 w0 toWrite).closed = b.closed := rfl
              refine ⟨by omega, by rw [← hb2]; exact hWF2, ?_, ?_, ?_, ?_, ?_⟩
              · rw [← hb2, hcont2, hcont1, List.append_assoc]
                congr 1
                have hdd : p.drop (written + toWrite)
                    = (p.drop written).drop toWrite := by
                  rw [List.drop_drop, Nat.add_comm]
                rw [hqdef, hdd]
                exact List.take_append_drop toWrite (p.drop written)
              · rw [← hb2, hsz2, hszA]
              · rw [← hb2, hcl2, hclA]
              · intro _
                by_cases hdone : written + toWrite = p.length
                · have := hkeq hdone
                  omega
                · -- partial write: the buffer is now full, so the next
                  -- iteration of the loop would block and return none
                  exfalso
                  have htwf : toWrite = b.Free := by omega
                  have hfull : (afterWrite b d0 w0 toWrite).Free = 0 := by
                    rw [CircularBuffer.Free, hAv1]
                    show b.size - (b.Available + toWrite) - 1 = 0
                    omega
                  rw [writeOuter_blocked f _ p (written + toWrite)
                    (by omega) hfull (by rw [hclA]; exact hclf)] at hrec
                  simp at hrec
              · intro hdone
                omega
    · rw [if_neg hlt] at h
      simp only [Option.some.injEq, Prod.mk.injEq, and_true, true_and] at h
      obtain ⟨hb, hn, hk⟩ := h
      have hweq : written = p.length := by omega
      rw [← hb, ← hn, ← hk]
      refine ⟨hweq, hWF, ?_, rfl, rfl, fun _ => by omega, fun _ => rfl⟩
      rw [hweq, List.drop_length, List.append_nil]

theorem writeGo_nil_spec (b b' : CircularBuffer) (p : List Nat) (n k : Nat)
    (hWF : WF b) (h : writeGo b p [] = some (b', n, false, k)) :
    n = p.length ∧ WF b' ∧ contents b' = contents b ++ p ∧ k ≤ 2 ∧
      b'.size = b.size ∧ b'.closed = b.closed := by
  rw [writeGo] at h
  by_cases hcl : b.closed
  · rw [if_pos hcl] at h
    simp at h
  · rw [if_neg hcl] at h
    obtain ⟨hn, hWF', hcont, hsz, hclp, hkin, hkeq⟩ :=
      writeOuter_nil_spec (p.length + 1) b b' p 0 n k hWF (by omega) h
    refine ⟨hn, hWF', by simpa using hcont, ?_, hsz, hclp⟩
    by_cases hp : 0 < p.length
    · exact hkin hp
    · have := hkeq (by omega)
      omega

theorem readGo_nil_spec (b b' : CircularBuffer) (nreq : Nat) (bytes : List Nat)
    (eof : Bool) (k : Nat) (hWF : WF b)
    (h : readGo b nreq [] = some (b', bytes, eof, k)) :
    WF b' ∧ b'.size = b.size ∧ k ≤ 2 ∧ contents b = bytes ++ contents b' := by
  rw [readGo, waitWhileEmpty_nil] at h
  by_cases hblk : b.Available = 0 ∧ b.closed = false
  · rw [if_pos hblk] at h
    simp at h
  · rw [if_neg hblk] at h
    dsimp only at h
    by_cases heof : b.Available = 0 ∧ b.closed = true
    · rw [if_pos heof] at h
      simp only [Option.some.injEq, Prod.mk.injEq] at h
      obtain ⟨hb', hbytes, _, hk⟩ := h
      rw [← hb', ← hbytes]
      refine ⟨hWF, rfl, by omega, ?_⟩
      have hnil : contents b = [] := by
        rw [contents, heof.1]
        rfl
      simp [hnil]
    · rw [if_neg heof] at h
      have hA : b.Available ≠ 0 := by
        intro h0
        cases hcb : b.closed with
        | false => exact hblk ⟨h0, hcb⟩
        | true => exact heof ⟨h0, hcb⟩
      obtain ⟨hd, hwp, hrp, htally⟩ := hWF
      have hAlt : b.Available < b.size := available_lt b hwp hrp
      set toRead := min nreq b.Available with htr
      have htrle : toRead ≤ b.Available := by omega
      obtain ⟨bytes0, k0, heq0, _, _, _, _⟩ :=
        readChunksF_spec toRead _ le_rfl b.size b.data b.readPos hrp hd (by omega)
      obtain ⟨rp0, hrp0⟩ : ∃ rp0, (b.readPos + toRead) % b.size = rp0 := ⟨_, rfl⟩
      rw [hrp0] at heq0
      have heq : readChunks b.size b.data b.readPos toRead
          = some (bytes0, rp0, k0) := by
        rw [readChunks, heq0]
      rw [heq] at h
      dsimp only at h
      simp only [Option.some.injEq, Prod.mk.injEq] at h
      obtain ⟨hb', hbytes, _, hk⟩ := h
      obtain ⟨hWF1, hbtake, hcont1, hk1, _⟩ :=
        batch_read b toRead bytes0 rp0 k0 ⟨hd, hwp, hrp, htally⟩ htrle heq
      rw [← hb', ← hbytes]
      refine ⟨hWF1, rfl, by omega, ?_⟩
      rw [hbtake, hcont1]
      exact (List.take_append_drop toRead (contents b)).symm


theorem joinWrites_write (p : List Nat) (ops : List BufOp) :
    joinWrites (.write p :: ops) = p ++ joinWrites ops := by
  simp [joinWrites, List.filterMap_cons]

theorem joinWrites_read (nreq : Nat) (ops : List BufOp) :
    joinWrites (.read nreq :: ops) = joinWrites ops := by
  simp [joinWrites, List.filterMap_cons]

theorem joinWrites_close (ops : List BufOp) :
    joinWrites (.closeOp :: ops) = joinWrites ops := by
  simp [joinWrites, List.filterMap_cons]

theorem run_spec (ops : List BufOp) :
    ∀ b b' outs ks, WF b → run b ops = some (b', outs, ks) →
    WF b' ∧ b'.size = b.size ∧
    contents b ++ joinWrites ops = outs.flatten ++ contents b' ∧
    (∀ k ∈ ks, k ≤ 2) := by
  induction ops with
  | nil =>
    intro b b' outs ks hWF h
    rw [run] at h
    simp only [Option.some.injEq, Prod.mk.injEq] at h
    obtain ⟨hb, houts, hks⟩ := h
    subst hb
    rw [← houts, ← hks]
    exact ⟨hWF, rfl, by simp [joinWrites], by simp⟩
  | cons op ops ih =>
    intro b b' outs ks hWF h
    cases op with
    | write p =>
      rw [run] at h
      rcases hwg : writeGo b p [] with _ | ⟨b1, n1, e1, k1⟩
      · rw [hwg] at h
        simp at h
      · rw [hwg] at h
        cases e1 with
        | true => simp at h
        | false =>
          dsimp only at h
          rcases hrun : run b1 ops with _ | ⟨b2, outs2, ks2⟩
          · rw [hrun] at h
            simp at h
          · rw [hrun] at h
            simp only [Option.some.injEq, Prod.mk.injEq] at h
            obtain ⟨hb2, houts, hks⟩ := h
            obtain ⟨hn, hWF1, hcont1, hk1, hsz1, _⟩ :=
              writeGo_nil_spec b b1 p n1 k1 hWF hwg
            obtain ⟨hWF2, hsz2, hcons, hkle⟩ := ih b1 b2 outs2 ks2 hWF1 hrun
            subst hb2
            rw [← houts, ← hks]
            refine ⟨hWF2, by rw [hsz2, hsz1], ?_, ?_⟩
            · rw [joinWrites_write, ← List.append_assoc, ← hcont1, hcons]
            · intro k hk
              rcases List.mem_cons.mp hk with hk | hk
              · omega
              · exact hkle k hk
    | read nreq =>
      rw [run] at h
      rcases hrg : readGo b nreq [] with _ | ⟨b1, bytes, eof1, k1⟩
      · rw [hrg] at h
        simp at h
      · rw [hrg] at h
        dsimp only at h
        rcases hrun : run b1 ops with _ | ⟨b2, outs2, ks2⟩
        · rw [hrun] at h
          simp at h
        · rw [hrun] at h
          simp only [Option.some.injEq, Prod.mk.injEq] at h
          obtain ⟨hb2, houts, hks⟩ := h
          obtain ⟨hWF1, hsz1, hk1, hcont1⟩ :=
            readGo_nil_spec b b1 nreq bytes eof1 k1 hWF hrg
          obtain ⟨hWF2, hsz2, hcons, hkle⟩ := ih b1 b2 outs2 ks2 hWF1 hrun
          subst hb2
          rw [← houts, ← hks]
          refine ⟨hWF2, by rw [hsz2, hsz1], ?_, ?_⟩
          · rw [joinWrites_read, List.flatten_cons, List.append_assoc, ← hcons,
              ← List.append_assoc, ← hcont1]
          · intro k hk
            rcases List.mem_cons.mp hk with hk | hk
            · omega
            · exact hkle k hk
    | closeOp =>
      rw [run] at h
      rcases hrun : run b.close ops with _ | ⟨b2, outs2, ks2⟩
      · rw [hrun] at h
        simp at h
      · rw [hrun] at h
        simp only [Option.some.injEq, Prod.mk.injEq] at h
        obtain ⟨hb2, houts, hks⟩ := h
        have hWFc : WF b.close := hWF
        obtain ⟨hWF2, hsz2, hcons, hkle⟩ := ih b.close b2 outs2 ks2 hWFc hrun
        subst hb2
        rw [← houts, ← hks]
        have hcc : contents b.close = contents b := rfl
        refine ⟨hWF2, hsz2, ?_, hkle⟩
        rw [joinWrites_close, ← hcc, hcons]

/-! ## Claim theorems for the circular buffer -/

/-- C1: for every sequence of `Write` and `Read` calls on one
`CircularBuffer` in which the total bytes read equal the total bytes
written and each write fits within capacity (both implied by the run
completing without blocking), the concatenation of the bytes returned
by the reads equals the concatenation of the bytes passed to the
writes, in order, including across wrap-around; and every call is
split into at most two contiguous copies. -/
theorem circular_buffer_fifo (size : Nat) (ops : List BufOp)
    (b' : CircularBuffer) (outs : List (List Nat)) (ks : List Nat)
    (hsize : 1 ≤ size)
    (hrun : run (newCircularBuffer size) ops = some (b', outs, ks))
    (htotal : outs.flatten.length = (joinWrites ops).length) :
    outs.flatten = joinWrites ops ∧ ∀ k ∈ ks, k ≤ 2 := by
  have hWF0 : WF (newCircularBuffer size) := by
    refine ⟨by simp [newCircularBuffer], by simp [newCircularBuffer]; omega,
      by simp [newCircularBuffer]; omega, ?_⟩
    simp [newCircularBuffer, CircularBuffer.Available]
  obtain ⟨hWF', hsz, hcons, hks⟩ := run_spec ops _ b' outs ks hWF0 hrun
  have hc0 : contents (newCircularBuffer size) = [] := by
    have : (newCircularBuffer size).Available = 0 := by
      simp [newCircularBuffer, CircularBuffer.Available]
    rw [contents, this]
    rfl
  rw [hc0, List.nil_append] at hcons
  have hlen : (contents b').length = 0 := by
    have := congrArg List.length hcons
    rw [List.length_append] at this
    omega
  have hnil : contents b' = [] := List.eq_nil_of_length_eq_zero hlen
  rw [hnil, List.append_nil] at hcons
  exact ⟨hcons.symm, hks⟩

/-- Witness for C1 at a concrete wrap-around run on a 4-byte buffer. -/
theorem circular_buffer_fifo_witness :
    ([[1, 2], [3, 9, 8]] : List (List Nat)).flatten
        = joinWrites [.write [1, 2, 3], .read 2, .write [9, 8], .read 3] ∧
      ∀ k ∈ ([1, 1, 2, 2] : List Nat), k ≤ 2 :=
  circular_buffer_fifo 4 [.write [1, 2, 3], .read 2, .write [9, 8], .read 3]
    ⟨[8, 2, 3, 9], 4, 1, 1, 5, 5, false⟩ [[1, 2], [3, 9, 8]] [1, 1, 2, 2]
    (by omega) (by rfl) (by rfl)

/-- C2: in every state reachable by a sequence of `Write`, `Read` and
`Close` calls on a buffer of capacity `size`,
`Available() + Free() = size - 1`; the buffer never holds `size` unread
bytes (one byte is permanently reserved), and `Available()` equals the
exact number of written-but-unread bytes, so `Available() = 0`
unambiguously means empty rather than full. -/
theorem circular_buffer_reserved_byte (size : Nat) (ops : List BufOp)
    (b' : CircularBuffer) (outs : List (List Nat)) (ks : List Nat)
    (hsize : 1 ≤ size)
    (hrun : run (newCircularBuffer size) ops = some (b', outs, ks)) :
    b'.Available + b'.Free = size - 1 ∧ b'.Available < size ∧
      b'.bytesWritten = b'.bytesRead + b'.Available := by
  have hWF0 : WF (newCircularBuffer size) := by
    refine ⟨by simp [newCircularBuffer], by simp [newCircularBuffer]; omega,
      by simp [newCircularBuffer]; omega, ?_⟩
    simp [newCircularBuffer, CircularBuffer.Available]
  obtain ⟨⟨hd, hw, hr, htally⟩, hsz, _, _⟩ := run_spec ops _ b' outs ks hWF0 hrun
  have hszn : (newCircularBuffer size).size = size := rfl
  rw [hszn] at hsz
  have hAlt : b'.Available < b'.size := available_lt b' hw hr
  have hFree : b'.Free = b'.size - b'.Available - 1 := rfl
  rw [hsz] at hAlt
  exact ⟨by rw [hFree, hsz]; omega, hAlt, htally⟩

/-- Witness for C2 after a concrete run with writes, reads and a close. -/
theorem circular_buffer_reserved_byte_witness :
    CircularBuffer.Available ⟨[8, 2, 3, 9], 4, 1, 1, 5, 5, true⟩
        + CircularBuffer.Free ⟨[8, 2, 3, 9], 4, 1, 1, 5, 5, true⟩ = 4 - 1 ∧
      CircularBuffer.Available ⟨[8, 2, 3, 9], 4, 1, 1, 5, 5, true⟩ < 4 ∧
      (⟨[8, 2, 3, 9], 4, 1, 1, 5, 5, true⟩ : CircularBuffer).bytesWritten
        = (⟨[8, 2, 3, 9], 4, 1, 1, 5, 5, true⟩ : CircularBuffer).bytesRead
          + CircularBuffer.Available ⟨[8, 2, 3, 9], 4, 1, 1, 5, 5, true⟩ :=
  circular_buffer_reserved_byte 4
    [.write [1, 2, 3], .read 2, .write [9, 8], .read 3, .closeOp]
    ⟨[8, 2, 3, 9], 4, 1, 1, 5, 5, true⟩ [[1, 2], [3, 9, 8]] [1, 1, 2, 2]
    (by omega) (by rfl)

/-- Helper for C10: the outer write loop, under any peer schedule,
returns a count equal to the full requested length unless it reports
the buffer-closed error. -/
theorem writeOuter_count (fuel : Nat) :
    ∀ b b' p written env n e k, written ≤ p.length →
    writeOuter fuel b p written env = some (b', n, e, k) →
    (e = false → n = p.length) := by
  induction fuel with
  | zero =>
    intro b b' p written env n e k _ h
    rw [writeOuter] at h
    simp at h
  | succ f ih =>
    intro b b' p written env n e k hwle h
    rw [writeOuter] at h
    by_cases hlt : written < p.length
    · rw [if_pos hlt] at h
      rcases hww : waitWhileFull b env with _ | ⟨b1, env1⟩
      · rw [hww] at h
        simp at h
      · rw [hww] at h
        dsimp only at h
        by_cases hcl : b1.closed = true
        · rw [if_pos hcl] at h
          simp only [Option.some.injEq, Prod.mk.injEq] at h
          obtain ⟨_, _, he, _⟩ := h
          intro hef
          rw [← he] at hef
          exact absurd hef (by simp)
        · rw [if_neg hcl] at h
          rcases hwc : writeChunks b1.size b1.data b1.writePos
              ((p.drop written).take (min (p.length - written) b1.Free))
            with _ | ⟨d, w, kc⟩
          · rw [hwc] at h
            simp at h
          · rw [hwc] at h
            dsimp only at h
            rcases hrec : writeOuter f
                (afterWrite b1 d w (min (p.length - written) b1.Free)) p
                (written + min (p.length - written) b1.Free) env1
              with _ | ⟨b2, n2, e2, k2⟩
            · rw [hrec] at h
              simp at h
            · rw [hrec] at h
              simp only [Option.some.injEq, Prod.mk.injEq] at h
              obtain ⟨_, hn2, he2, _⟩ := h
              have := ih _ b2 p _ env1 n2 e2 k2 (by omega) hrec
              intro hef
              rw [← hn2]
              exact this (by rw [he2, hef])
    · rw [if_neg hlt] at h
      simp only [Option.some.injEq, Prod.mk.injEq, and_true, true_and] at h
      obtain ⟨_, hn, _⟩ := h
      intro _
      omega

/-- C10: whenever `CircularBuffer.Write(p)` returns a nil error the
returned count equals `len(p)` (the call blocks, under any peer
schedule, until all bytes are stored rather than performing a short
write); a count smaller than `len(p)` is only returned together with
the buffer-closed error. -/
theorem write_blocks_until_complete (b b' : CircularBuffer) (p : List Nat)
    (env : List EnvAct) (n : Nat) (e : Bool) (k : Nat)
    (h : writeGo b p env = some (b', n, e, k)) :
    (e = false → n = p.length) ∧ (n < p.length → e = true) := by
  have hmain : e = false → n = p.length := by
    rw [writeGo] at h
    by_cases hcl : b.closed
    · rw [if_pos hcl] at h
      simp only [Option.some.injEq, Prod.mk.injEq] at h
      obtain ⟨_, _, he, _⟩ := h
      intro hef
      rw [← he] at hef
      exact absurd hef (by simp)
    · rw [if_neg hcl] at h
      exact writeOuter_count (p.length + 1) b b' p 0 env n e k (by omega) h
  refine ⟨hmain, ?_⟩
  intro hn
  cases e with
  | true => rfl
  | false =>
    have := hmain rfl
    omega

/-- Witness for C10: a 5-byte write into a 4-byte buffer that blocks
mid-way, resumes after the peer consumes 3 bytes, and returns the full
count with a nil error. -/
theorem write_blocks_until_complete_witness :
    ((false : Bool) = false → (5 : Nat) = [1, 2, 3, 4, 5].length) ∧
      ((5 : Nat) < [1, 2, 3, 4, 5].length → (false : Bool) = true) :=
  write_blocks_until_complete (newCircularBuffer 4)
    ⟨[5, 2, 3, 4], 4, 1, 3, 5, 3, false⟩ [1, 2, 3, 4, 5] [.consume 3] 5 false 3
    (by rfl)

/-! ## Claim theorems for the retry manager -/

theorem retryReadGo_fail_then_ok (N maxRetries v : Nat) (reader : Nat → RRes)
    (errs : Nat → Nat) (hfail : ∀ i, i < N → reader i = RRes.err (errs i))
    (hsucc : reader N = RRes.ok v) :
    ∀ left attempt count lastErr,
    attempt + left = maxRetries + 1 → attempt ≤ N →
    lastErr = (if attempt = 0 then none else some (errs (attempt - 1))) →
    retryReadGo reader maxRetries attempt left count lastErr
      = if N ≤ maxRetries
        then { count := v, isEof := false, failed := false, wrappedBudget := none,
               wrappedErr := none, retries := count + (N - attempt), calls := N + 1 }
        else { count := 0, isEof := false, failed := true,
               wrappedBudget := some maxRetries,
               wrappedErr := some (errs (maxRetries)),
               retries := count + left, calls := maxRetries + 1 } := by
  intro left
  induction left with
  | zero =>
    intro attempt count lastErr hsum hle hlast
    have hatt : attempt = maxRetries + 1 := by omega
    subst hatt
    rw [if_neg (by omega), retryReadGo, hlast, if_neg (by omega)]
    simp
  | succ left ih =>
    intro attempt count lastErr hsum hle hlast
    by_cases hN : attempt = N
    · subst hN
      rw [retryReadGo, hsucc, if_pos (by omega)]
      simp
    · rw [retryReadGo, hfail attempt (by omega)]
      dsimp only
      rw [ih (attempt + 1) (count + 1) (some (errs attempt)) (by omega) (by omega)
        (by simp)]
      split
      · have harith : count + 1 + (N - (attempt + 1)) = count + (N - attempt) := by
          omega
        rw [harith]
      · have harith : count + 1 + left = count + (left + 1) := by omega
        rw [harith]

/-- C3 (amended): for a reader that fails on its first `N` read calls
and succeeds on call `N`: with `max_retries ≥ N`, `RetryRead` returns
the successful read after `N + 1` read calls and records exactly `N`
retries; with `max_retries < N` it fails after exactly
`max_retries + 1` read calls (the initial attempt plus `max_retries`
retries), recording `max_retries + 1` retry-count increments and
returning a wrapped error naming the retry budget and the last
underlying error; a read call that returns success or end-of-stream
returns immediately without incrementing the retry count. -/
theorem retry_read_spec (N maxRetries v : Nat) (reader : Nat → RRes)
    (errs : Nat → Nat) (hfail : ∀ i, i < N → reader i = RRes.err (errs i))
    (hsucc : reader N = RRes.ok v) :
    (N ≤ maxRetries →
      retryRead maxRetries reader
        = { count := v, isEof := false, failed := false, wrappedBudget := none,
            wrappedErr := none, retries := N, calls := N + 1 }) ∧
    (maxRetries < N →
      retryRead maxRetries reader
        = { count := 0, isEof := false, failed := true,
            wrappedBudget := some maxRetries,
            wrappedErr := some (errs maxRetries),
            retries := maxRetries + 1, calls := maxRetries + 1 }) ∧
    (∀ (reader2 : Nat → RRes) (m w : Nat), reader2 0 = RRes.eofR w →
      retryRead m reader2
        = { count := w, isEof := true, failed := false, wrappedBudget := none,
            wrappedErr := none, retries := 0, calls := 1 }) := by
  have hmain := retryReadGo_fail_then_ok N maxRetries v reader errs hfail hsucc
    (maxRetries + 1) 0 0 none (by omega)
  refine ⟨?_, ?_, ?_⟩
  · intro hle
    rw [retryRead, hmain (by omega) (by simp), if_pos hle]
    simp
  · intro hlt
    rw [retryRead, hmain (by omega) (by simp), if_neg (by omega)]
    simp
  · intro reader2 m w h0
    rw [retryRead, retryReadGo, h0]

/-- Witness for C3 at `N = 2`: a reader failing twice then succeeding,
with budgets 3 (success after 2 retries) and an end-of-stream reader. -/
theorem retry_read_spec_witness :
    (2 ≤ 3 →
      retryRead 3 (fun i => if i < 2 then RRes.err (i + 10) else RRes.ok 42)
        = { count := 42, isEof := false, failed := false, wrappedBudget := none,
            wrappedErr := none, retries := 2, calls := 3 }) ∧
    (3 < 2 →
      retryRead 3 (fun i => if i < 2 then RRes.err (i + 10) else RRes.ok 42)
        = { count := 0, isEof := false, failed := true, wrappedBudget := some 3,
            wrappedErr := some (3 + 10), retries := 4, calls := 4 }) ∧
    (∀ (reader2 : Nat → RRes) (m w : Nat), reader2 0 = RRes.eofR w →
      retryRead m reader2
        = { count := w, isEof := true, failed := false, wrappedBudget := none,
            wrappedErr := none, retries := 0, calls := 1 }) :=
  retry_read_spec 2 3 42 (fun i => if i < 2 then RRes.err (i + 10) else RRes.ok 42)
    (fun i => i + 10) (fun i hi => by simp [hi]) (by simp)

/-- Counterexample to C3 as stated: with `max_retries = 2` and a reader
that fails 3 times before succeeding, the claim predicts failure after
exactly 2 read attempts; the loop `for attempt := 0; attempt <= maxRetries`
actually performs 3 read calls (and records 3 retry increments) before
returning the wrapped error. -/
theorem retry_read_attempts_counterexample :
    (retryRead 2 (fun i => if i < 3 then RRes.err 7 else RRes.ok 42)).failed = true ∧
    (retryRead 2 (fun i => if i < 3 then RRes.err 7 else RRes.ok 42)).calls = 3 ∧
    (retryRead 2 (fun i => if i < 3 then RRes.err 7 else RRes.ok 42)).retries = 3 ∧
    (3 : Nat) ≠ 2 := by
  refine ⟨rfl, rfl, rfl, by omega⟩

/-! ## Claim theorems for the buffer manager -/

/-- C4 (amended): `WaitForData(min)` returns success as soon as
`Available() ≥ min`, even while the producer is still active; it
returns end-of-stream (not a timeout) once the prefetch loop is
inactive and the buffer has drained to empty (`Available() = 0`, not
merely below the threshold); and if neither condition occurs within
the 30-second limit it returns a timeout error distinct from
end-of-stream. -/
theorem wait_for_data_spec (minBytes : Nat) :
    ∀ (fuel : Nat) (obs : Nat → Nat × Bool),
    (∀ i, i < fuel →
      (∀ j, j < i → (obs j).1 < minBytes ∧ ¬((obs j).2 = false ∧ (obs j).1 = 0)) →
      (minBytes ≤ (obs i).1 → waitForData minBytes obs fuel = .success) ∧
      ((obs i).1 < minBytes → (obs i).2 = false → (obs i).1 = 0 →
        waitForData minBytes obs fuel = .eofR)) ∧
    ((∀ i, i < fuel → (obs i).1 < minBytes ∧ ¬((obs i).2 = false ∧ (obs i).1 = 0)) →
      waitForData minBytes obs fuel = .timeoutR) ∧
    WFDResult.timeoutR ≠ WFDResult.eofR := by
  intro fuel
  induction fuel with
  | zero =>
    intro obs
    exact ⟨fun i hi => absurd hi (by omega), fun _ => rfl, by simp⟩
  | succ f ih =>
    intro obs
    refine ⟨?_, ?_, by simp⟩
    · intro i hi hprev
      match i with
      | 0 =>
        constructor
        · intro hge
          rw [waitForData, if_pos hge]
        · intro hlt hact h0
          rw [waitForData, if_neg (by omega), if_pos ⟨hact, h0⟩]
      | i + 1 =>
        obtain ⟨hlt0, hcont0⟩ := hprev 0 (by omega)
        constructor
        · intro hge
          rw [waitForData, if_neg (by omega), if_neg hcont0]
          exact ((ih (fun n => obs (n + 1))).1 i (by omega)
            (fun j hj => hprev (j + 1) (by omega))).1 hge
        · intro hlt hact h0
          rw [waitForData, if_neg (by omega), if_neg hcont0]
          exact ((ih (fun n => obs (n + 1))).1 i (by omega)
            (fun j hj => hprev (j + 1) (by omega))).2 hlt hact h0
    · intro hall
      obtain ⟨hlt0, hcont0⟩ := hall 0 (by omega)
      rw [waitForData, if_neg (by omega), if_neg hcont0]
      exact (ih (fun n => obs (n + 1))).2.1 (fun i hi => hall (i + 1) (by omega))

/-- Witness for C4 on concrete observation streams: immediate success
at the threshold, end-of-stream on the second tick after the producer
stops with an empty buffer, and a timeout when the buffer stays
nonempty but below the threshold. -/
theorem wait_for_data_spec_witness :
    (waitForData 10 (fun _ => (10, true)) 3 = WFDResult.success) ∧
    (waitForData 10 (fun n => if n = 0 then (3, true) else (0, false)) 3
      = WFDResult.eofR) ∧
    (waitForData 10 (fun _ => (5, false)) 3 = WFDResult.timeoutR) := by
  refine ⟨?_, ?_, ?_⟩
  · exact ((wait_for_data_spec 10 3 (fun _ => (10, true))).1 0 (by omega)
      (fun j hj => absurd hj (by omega))).1 (by norm_num)
  · exact ((wait_for_data_spec 10 3
      (fun n => if n = 0 then (3, true) else (0, false))).1 1 (by omega)
      (fun j hj => by interval_cases j <;> simp)).2 (by simp) (by simp) (by simp)
  · exact (wait_for_data_spec 10 3 (fun _ => (5, false))).2.1
      (fun i hi => by simp)

/-- Counterexample to C4 as stated: with the prefetch loop stopped and
5 bytes still buffered (below the 10-byte threshold but not zero),
the claim predicts end-of-stream; `WaitForData` polls until the
30-second limit and returns the timeout error instead, because its
end-of-stream condition requires `Available() == 0` exactly. -/
theorem wait_for_data_counterexample :
    waitForData 10 (fun _ => (5, false)) 3 = WFDResult.timeoutR ∧
      WFDResult.timeoutR ≠ WFDResult.eofR := by
  exact ⟨rfl, by simp⟩

/-- C5 (amended): an iteration of the prefetch loop throttles (sleeps
without issuing a read) exactly when the buffer's fill ratio strictly
exceeds the configured prefetch ratio, and stops when cancelled; in
the 10 MB / ratio-0.8 scenario the loop still issues a read at exactly
8 MB buffered, throttles once the level strictly exceeds 8 MB (for
example after one more 32 KB read), and resumes at or below 8 MB. -/
theorem prefetch_throttle_strict (available size : Nat) (ratio : ℚ) :
    (prefetchDecision false available size ratio = .throttleSleep
      ↔ (available : ℚ) / (size : ℚ) > ratio) ∧
    (prefetchDecision false available size ratio = .issueRead
      ↔ ¬((available : ℚ) / (size : ℚ) > ratio)) ∧
    prefetchDecision true available size ratio = .stopped ∧
    prefetchDecision false 8388608 10485760 (4/5) = .issueRead ∧
    prefetchDecision false (8388608 + 32768) 10485760 (4/5) = .throttleSleep := by
  refine ⟨?_, ?_, rfl, ?_, ?_⟩
  · rw [prefetchDecision, if_neg (by simp)]
    by_cases hc : (available : ℚ) / (size : ℚ) > ratio
    · rw [if_pos hc]
      simp [hc]
    · rw [if_neg hc]
      simp [hc]
  · rw [prefetchDecision, if_neg (by simp)]
    by_cases hc : (available : ℚ) / (size : ℚ) > ratio
    · rw [if_pos hc]
      simp [hc]
    · rw [if_neg hc]
      simp [hc]
  · rw [prefetchDecision, if_neg (by simp), if_neg (by norm_num)]
  · rw [prefetchDecision, if_neg (by simp), if_pos (by norm_num)]

/-- Counterexample to C5 as stated: at exactly 8 MB buffered in a
10 MB buffer with prefetch ratio 0.8 the fill ratio is at (not above)
the configured ratio; the claim says the prefetch task stops issuing
reads, but `stats.BufferLevel > m.config.PrefetchRatio` is strict, so
the loop issues another read. -/
theorem prefetch_throttle_counterexample :
    prefetchDecision false 8388608 10485760 (4/5) = PrefetchStep.issueRead ∧
      PrefetchStep.issueRead ≠ PrefetchStep.throttleSleep := by
  constructor
  · rw [prefetchDecision, if_neg (by simp), if_neg (by norm_num)]
  · simp

/-! ## Claim theorems for hardware detection and selection -/

/-- C8 (amended): whatever the outcomes of the per-vendor probes,
`DetectGPUs` returns (with no error path at all) a non-empty catalog
whose first entry is the CPU device, marked available, with
capabilities h264, h265, vp8 and vp9; a failing vendor probe only
omits that vendor, and every successful probe's device is included. -/
theorem detect_gpus_cpu_fallback (nvidia intel amd : Option HardwareInfo) :
    detectGPUs nvidia intel amd ≠ [] ∧
    (detectGPUs nvidia intel amd).head? = some cpuFallback ∧
    cpuFallback.available = true ∧
    cpuFallback.capabilities = ["h264", "h265", "vp8", "vp9"] ∧
    (∀ g ∈ detectGPUs nvidia intel amd,
      g = cpuFallback ∨ nvidia = some g ∨ intel = some g ∨ amd = some g) ∧
    (∀ g, nvidia = some g → g ∈ detectGPUs nvidia intel amd) ∧
    (∀ g, intel = some g → g ∈ detectGPUs nvidia intel amd) ∧
    (∀ g, amd = some g → g ∈ detectGPUs nvidia intel amd) := by
  rcases nvidia with _ | g1 <;> rcases intel with _ | g2 <;> rcases amd with _ | g3 <;>
    simp [detectGPUs] <;> tauto

/-- Witness for C8 with only the NVIDIA probe succeeding. -/
theorem detect_gpus_cpu_fallback_witness :
    detectGPUs (some nvidiaDev) none none ≠ [] ∧
    (detectGPUs (some nvidiaDev) none none).head? = some cpuFallback ∧
    cpuFallback.available = true ∧
    cpuFallback.capabilities = ["h264", "h265", "vp8", "vp9"] ∧
    (∀ g ∈ detectGPUs (some nvidiaDev) none none,
      g = cpuFallback ∨ some nvidiaDev = some g ∨ none = some g ∨ none = some g) ∧
    (∀ g, some nvidiaDev = some g → g ∈ detectGPUs (some nvidiaDev) none none) ∧
    (∀ g, (none : Option HardwareInfo) = some g
      → g ∈ detectGPUs (some nvidiaDev) none none) ∧
    (∀ g, (none : Option HardwareInfo) = some g
      → g ∈ detectGPUs (some nvidiaDev) none none) :=
  detect_gpus_cpu_fallback (some nvidiaDev) none none

/-- Counterexample to C8 as stated: the CPU entry's capability list is
h264, h265, vp8, vp9 — it contains vp8 and does not contain mpeg2, so
it is not the claimed {h264, h265, vp9, mpeg2}. -/
theorem detect_gpus_capabilities_counterexample :
    cpuFallback ∈ detectGPUs none none none ∧
    "mpeg2" ∉ cpuFallback.capabilities ∧
    "vp8" ∈ cpuFallback.capabilities ∧
    cpuFallback.capabilities ≠ ["h264", "h265", "vp9", "mpeg2"] := by
  decide

theorem hwType_str_intel (t : HardwareType) : t.str = "intel" ↔ t = .intel := by
  cases t <;> simp [HardwareType.str]

/-- C9 (amended): requesting kind "intel" through the explicit
kind+index path on a catalog with no Intel entry fails with
`ErrDeviceNotFound` (it does not fall back to NVIDIA or CPU); but a
configured preference for Intel that is unavailable does not fail —
`SelectHardware` logs the degradation and falls through to auto
selection, behaving exactly as with an auto preference (so on a
{cpu, nvidia} catalog it returns the NVIDIA device). -/
theorem select_hardware_no_intel (gpus : List HardwareInfo)
    (preferred : HardwareType) (deviceID : Int)
    (hno : ∀ g ∈ gpus, g.hwType ≠ HardwareType.intel) (hne : gpus ≠ []) :
    selectHardware gpus preferred "intel" deviceID = .error .deviceNotFound ∧
    (∀ id2 : Int, selectHardware gpus .intel "auto" id2
      = selectHardware gpus .auto "auto" id2) := by
  have hlen : ¬(gpus.length = 0) := by
    intro h0
    exact hne (List.eq_nil_of_length_eq_zero h0)
  have hfind : gpus.find? (fun g =>
      g.hwType.str == "intel" && g.deviceID == deviceID && g.available) = none := by
    rw [List.find?_eq_none]
    intro g hg
    simp only [Bool.and_eq_true, beq_iff_eq, not_and]
    intro hstr
    exact absurd ((hwType_str_intel g.hwType).mp hstr.1) (hno g hg)
  have hprefFind : gpus.find? (fun g =>
      g.hwType == HardwareType.intel && g.available) = none := by
    rw [List.find?_eq_none]
    intro g hg
    simp only [Bool.and_eq_true, beq_iff_eq, not_and]
    intro ht
    exact absurd ht (hno g hg)
  constructor
  · rw [selectHardware, if_neg hlen, if_pos (by refine ⟨?_, ?_, ?_⟩ <;> decide),
      hfind]
  · intro id2
    rw [selectHardware, selectHardware, if_neg hlen,
      if_neg (show ¬("auto" ≠ "auto" ∧ "auto" ≠ "none" ∧ "auto" ≠ "") by simp)]
    rw [if_neg (show ¬("auto" = "none") by simp)]
    dsimp only
    rw [if_pos (show HardwareType.intel ≠ HardwareType.auto by decide), hprefFind,
      if_neg (show ¬(HardwareType.auto ≠ HardwareType.auto) by simp)]
    rw [if_neg hlen,
      if_neg (show ¬("auto" ≠ "auto" ∧ "auto" ≠ "none" ∧ "auto" ≠ "") by simp)]

/-- Witness for C9 on the catalog {cpu, nvidia}: the explicit request
fails with `ErrDeviceNotFound`, and the configured-preference path
coincides with auto selection. -/
theorem select_hardware_no_intel_witness :
    selectHardware [cpuFallback, nvidiaDev] .intel "intel" 0
        = .error .deviceNotFound ∧
      (∀ id2 : Int, selectHardware [cpuFallback, nvidiaDev] .intel "auto" id2
        = selectHardware [cpuFallback, nvidiaDev] .auto "auto" id2) :=
  select_hardware_no_intel [cpuFallback, nvidiaDev] .intel 0
    (by
      intro g hg
      rcases List.mem_cons.mp hg with rfl | hg2
      · decide
      · rcases List.mem_singleton.mp hg2 with rfl
        decide)
    (by simp)

/-- Counterexample to C9 as stated: with catalog {cpu, nvidia} and a
configured (initialization-time) preference for Intel, requesting
selection via the preference path (`deviceType = "auto"`) does not
fail with a NoSuitableHardware-class error — it silently (with only a
log line) falls through to auto selection and returns the NVIDIA
device. -/
theorem select_hardware_preference_counterexample :
    selectHardware [cpuFallback, nvidiaDev] .intel "auto" 0 = .ok nvidiaDev ∧
    nvidiaDev.hwType = HardwareType.nvidia ∧
    (Except.ok nvidiaDev : Except SelErr HardwareInfo)
      ≠ .error .noSuitableHardware ∧
    (Except.ok nvidiaDev : Except SelErr HardwareInfo)
      ≠ .error .deviceNotFound := by
  refine ⟨rfl, rfl, by simp, by simp⟩

/-! ## Claim theorems for FFmpeg command assembly -/

theorem splitHW_default (a : String) (rest : List String)
    (h1 : ¬(a = "-c:v" ∨ a = "-c:a"))
    (h2 : ¬(a = "-vaapi_device" ∨ a = "-init_hw_device" ∨ a = "-filter_hw_device")) :
    splitHardwareArgs (a :: rest)
      = (a :: (splitHardwareArgs rest).1, (splitHardwareArgs rest).2) := by
  rw [splitHardwareArgs.eq_def]
  dsimp only
  rw [if_neg h1, if_neg h2]

theorem splitHW_codec (a v : String) (rest : List String)
    (h1 : a = "-c:v" ∨ a = "-c:a") :
    splitHardwareArgs (a :: v :: rest)
      = (a :: v :: (splitHardwareArgs rest).1, (splitHardwareArgs rest).2) := by
  rw [splitHardwareArgs, if_pos h1]

theorem splitHW_device (a v : String) (rest : List String)
    (h1 : ¬(a = "-c:v" ∨ a = "-c:a"))
    (h2 : a = "-vaapi_device" ∨ a = "-init_hw_device" ∨ a = "-filter_hw_device") :
    splitHardwareArgs (a :: v :: rest)
      = ((splitHardwareArgs rest).1, a :: v :: (splitHardwareArgs rest).2) := by
  rw [splitHardwareArgs, if_neg h1, if_pos h2]

theorem buildCommand_eq (hw : HardwareInfo) (profile : TranscodingProfile)
    (inputURL : String) :
    buildCommand hw profile inputURL
      = ["-hide_banner", "-loglevel", "warning", "-stats"]
        ++ (splitHardwareArgs (getFFmpegArgs hw profile)).2
        ++ ["-fflags", "+genpts+discardcorrupt+nobuffer", "-err_detect",
            "ignore_err", "-i", inputURL]
        ++ (splitHardwareArgs (getFFmpegArgs hw profile)).1
        ++ profile.extraArgs
        ++ (if profile.extraArgs.contains "-f" = false
            then ["-f", profile.container] else [])
        ++ ["pipe:1"] := by
  rw [buildCommand]
  split <;> simp

/-- Counterexample to C6 as stated: with the profile built by
`CreateProfile` (whose `ExtraArgs` carry codec and bitrate flags) the
assembled command contains `-c:v` and `-b:v` three times each — once
from the selector's own codec arguments, once from the profile's
`ExtraArgs` embedded in the selector output, and once from
`buildCommand` appending `profile.ExtraArgs` again — so the profile's
codec/bitrate flags are not suppressed by any lookup-before-append
check. -/
theorem build_command_duplicate_flags_counterexample :
    ((buildCommand cpuFallback (CreateProfile "h264" "aac" "2M" "128k")
        "http://upstream").count "-c:v" = 3) ∧
    ((buildCommand cpuFallback (CreateProfile "h264" "aac" "2M" "128k")
        "http://upstream").count "-b:v" = 3) ∧
    (3 : Nat) ≠ 1 :=
  ⟨rfl, rfl, by omega⟩

set_option maxHeartbeats 1600000 in
/-- C6 (amended): `buildCommand` has no lookup-before-append
suppression for codec or bitrate flags — the selector output (which
already embeds the profile's `ExtraArgs`) and the profile's
`ExtraArgs` are appended unconditionally, and only the container flag
`-f` is guarded by a lookup (against `ExtraArgs` alone).  Each codec
and bitrate flag therefore appears exactly once only because the
streaming profile builder `NewTranscodingProfile` deliberately puts no
codec/bitrate flags in `ExtraArgs`: for every hardware selection
(whose device path, `vaapi=va:` string, device index and input URL are
not themselves flag names), the command for such a profile holds
`-c:v`, `-c:a`, `-b:v`, `-b:a` exactly once — while `-f` still appears
three times. -/
theorem build_command_stream_codec_once (hw : HardwareInfo) (url : String)
    (hdp : hw.devicePath ∉ watchedFlags)
    (hva : ("vaapi=va:" ++ hw.devicePath) ∉ watchedFlags)
    (hid : toString hw.deviceID ∉ watchedFlags)
    (hurl : url ∉ watchedFlags) :
    ((buildCommand hw (newTranscodingProfile "h264" "aac" "2M" "128k") url).count
      "-c:v" = 1) ∧
    ((buildCommand hw (newTranscodingProfile "h264" "aac" "2M" "128k") url).count
      "-c:a" = 1) ∧
    ((buildCommand hw (newTranscodingProfile "h264" "aac" "2M" "128k") url).count
      "-b:v" = 1) ∧
    ((buildCommand hw (newTranscodingProfile "h264" "aac" "2M" "128k") url).count
      "-b:a" = 1) ∧
    ((buildCommand hw (newTranscodingProfile "h264" "aac" "2M" "128k") url).count
      "-f" = 3) := by
  obtain ⟨ht, dp, id, nm, caps, av⟩ := hw
  simp only [watchedFlags, List.mem_cons, List.not_mem_nil, or_false, not_or]
    at hdp hva hid hurl
  obtain ⟨hdp1, hdp2, hdp3, hdp4, hdp5, hdp6, hdp7, hdp8⟩ := hdp
  obtain ⟨hva1, hva2, hva3, hva4, hva5, hva6, hva7, hva8⟩ := hva
  obtain ⟨hid1, hid2, hid3, hid4, hid5, hid6, hid7, hid8⟩ := hid
  obtain ⟨hurl1, hurl2, hurl3, hurl4, hurl5, hurl6, hurl7, hurl8⟩ := hurl
  cases ht with
  | nvidia =>
    by_cases hge : id ≥ (0 : Int)
    · have hargs : getFFmpegArgs ⟨.nvidia, dp, id, nm, caps, av⟩
          (newTranscodingProfile "h264" "aac" "2M" "128k")
          = "-gpu" :: toString id ::
            (["-c:v", "h264_nvenc", "-preset", "p4", "-tune", "hq", "-rc", "vbr",
              "-rc-lookahead", "20", "-b_ref_mode", "middle",
              "-c:a", "aac", "-b:v", "2M", "-b:a", "128k", "-f", "mpegts"]
              ++ commonStreamArgs) := by
        simp only [getFFmpegArgs, getVideoCodecArgs, getNVIDIAVideoArgs,
          getAudioCodecArgs, getBitrateArgs, newTranscodingProfile]
        rw [if_neg (by decide), if_pos hge]
        simp
      have hrest : splitHardwareArgs
          (["-c:v", "h264_nvenc", "-preset", "p4", "-tune", "hq", "-rc", "vbr",
            "-rc-lookahead", "20", "-b_ref_mode", "middle",
            "-c:a", "aac", "-b:v", "2M", "-b:a", "128k", "-f", "mpegts"]
            ++ commonStreamArgs)
          = (["-c:v", "h264_nvenc", "-preset", "p4", "-tune", "hq", "-rc", "vbr",
              "-rc-lookahead", "20", "-b_ref_mode", "middle",
              "-c:a", "aac", "-b:v", "2M", "-b:a", "128k", "-f", "mpegts"]
              ++ commonStreamArgs, []) := by rfl
      have hsplit : splitHardwareArgs (getFFmpegArgs ⟨.nvidia, dp, id, nm, caps, av⟩
          (newTranscodingProfile "h264" "aac" "2M" "128k"))
          = ("-gpu" :: toString id ::
              (["-c:v", "h264_nvenc", "-preset", "p4", "-tune", "hq", "-rc", "vbr",
                "-rc-lookahead", "20", "-b_ref_mode", "middle",
                "-c:a", "aac", "-b:v", "2M", "-b:a", "128k", "-f", "mpegts"]
                ++ commonStreamArgs), []) := by
        rw [hargs, splitHW_default _ _ (by decide) (by decide),
          splitHW_default _ _ (by simp [hid1, hid2]) (by simp [hid6, hid7, hid8]),
          hrest]
      refine ⟨?_, ?_, ?_, ?_, ?_⟩ <;>
        (rw [buildCommand_eq, hsplit]
         simp only [newTranscodingProfile]
         rw [if_neg (by decide)]
         simp only [commonStreamArgs, List.count_append, List.count_cons,
           List.count_nil]
         simp [hid1, hid2, hid3, hid4, hid5, hurl1, hurl2, hurl3, hurl4, hurl5])
    · have hargs : getFFmpegArgs ⟨.nvidia, dp, id, nm, caps, av⟩
          (newTranscodingProfile "h264" "aac" "2M" "128k")
          = ["-c:v", "h264_nvenc", "-preset", "p4", "-tune", "hq", "-rc", "vbr",
              "-rc-lookahead", "20", "-b_ref_mode", "middle",
              "-c:a", "aac", "-b:v", "2M", "-b:a", "128k", "-f", "mpegts"]
              ++ commonStreamArgs := by
        simp only [getFFmpegArgs, getVideoCodecArgs, getNVIDIAVideoArgs,
          getAudioCodecArgs, getBitrateArgs, newTranscodingProfile]
        rw [if_neg (by decide), if_neg hge]
        simp
      have hsplit : splitHardwareArgs (getFFmpegArgs ⟨.nvidia, dp, id, nm, caps, av⟩
          (newTranscodingProfile "h264" "aac" "2M" "128k"))
          = (["-c:v", "h264_nvenc", "-preset", "p4", "-tune", "hq", "-rc", "vbr",
              "-rc-lookahead", "20", "-b_ref_mode", "middle",
              "-c:a", "aac", "-b:v", "2M", "-b:a", "128k", "-f", "mpegts"]
              ++ commonStreamArgs, []) := by
        rw [hargs]
        rfl
      refine ⟨?_, ?_, ?_, ?_, ?_⟩ <;>
        (rw [buildCommand_eq, hsplit]
         simp only [newTranscodingProfile]
         rw [if_neg (by decide)]
         simp only [commonStreamArgs, List.count_append, List.count_cons,
           List.count_nil]
         simp [hurl1, hurl2, hurl3, hurl4, hurl5])
  | intel =>
    by_cases hdp0 : dp = ""
    · subst hdp0
      have hsplit : splitHardwareArgs (getFFmpegArgs ⟨.intel, "", id, nm, caps, av⟩
          (newTranscodingProfile "h264" "aac" "2M" "128k"))
          = (["-c:v", "h264_vaapi",
              "-c:a", "aac", "-b:v", "2M", "-b:a", "128k", "-f", "mpegts"]
              ++ commonStreamArgs, ["-vaapi_device", ""]) := by rfl
      refine ⟨?_, ?_, ?_, ?_, ?_⟩ <;>
        (rw [buildCommand_eq, hsplit]
         simp only [newTranscodingProfile]
         rw [if_neg (by decide)]
         simp only [commonStreamArgs, List.count_append, List.count_cons,
           List.count_nil]
         simp [hurl1, hurl2, hurl3, hurl4, hurl5])
    · have hargs : getFFmpegArgs ⟨.intel, dp, id, nm, caps, av⟩
          (newTranscodingProfile "h264" "aac" "2M" "128k")
          = "-init_hw_device" :: ("vaapi=va:" ++ dp) :: "-filter_hw_device" :: "va" ::
            "-c:v" :: "h264_vaapi" :: "-vaapi_device" :: dp ::
            (["-c:a", "aac", "-b:v", "2M", "-b:a", "128k", "-f", "mpegts"]
              ++ commonStreamArgs) := by
        simp only [getFFmpegArgs, getVideoCodecArgs, getIntelVideoArgs,
          getAudioCodecArgs, getBitrateArgs, newTranscodingProfile]
        rw [if_neg (by decide), if_pos hdp0]
        simp
      have hrest : splitHardwareArgs
          (["-c:a", "aac", "-b:v", "2M", "-b:a", "128k", "-f", "mpegts"]
            ++ commonStreamArgs)
          = (["-c:a", "aac", "-b:v", "2M", "-b:a", "128k", "-f", "mpegts"]
              ++ commonStreamArgs, []) := by rfl
      have hsplit : splitHardwareArgs (getFFmpegArgs ⟨.intel, dp, id, nm, caps, av⟩
          (newTranscodingProfile "h264" "aac" "2M" "128k"))
          = ("-c:v" :: "h264_vaapi" ::
              (["-c:a", "aac", "-b:v", "2M", "-b:a", "128k", "-f", "mpegts"]
                ++ commonStreamArgs),
             "-init_hw_device" :: ("vaapi=va:" ++ dp) :: "-filter_hw_device" ::
              "va" :: "-vaapi_device" :: dp :: []) := by
        rw [hargs, splitHW_device _ _ _ (by decide) (by simp),
          splitHW_device _ _ _ (by decide) (by simp),
          splitHW_codec _ _ _ (by simp),
          splitHW_device _ _ _ (by decide) (by simp), hrest]
      refine ⟨?_, ?_, ?_, ?_, ?_⟩ <;>
        (rw [buildCommand_eq, hsplit]
         simp only [newTranscodingProfile]
         rw [if_neg (by decide)]
         simp only [commonStreamArgs, List.count_append, List.count_cons,
           List.count_nil]
         simp [hdp1, hdp2, hdp3, hdp4, hdp5, hva1, hva2, hva3, hva4, hva5,
           hurl1, hurl2, hurl3, hurl4, hurl5])
  | amd =>
    by_cases hdri : strContains dp "/dev/dri" = true
    · by_cases hdp0 : dp = ""
      · subst hdp0
        have hargs : getFFmpegArgs ⟨.amd, "", id, nm, caps, av⟩
            (newTranscodingProfile "h264" "aac" "2M" "128k")
            = "-c:v" :: "h264_vaapi" :: "-vaapi_device" :: "" ::
              (["-c:a", "aac", "-b:v", "2M", "-b:a", "128k", "-f", "mpegts"]
                ++ commonStreamArgs) := by
          simp only [getFFmpegArgs, getVideoCodecArgs, getAMDVideoArgs,
            getAMDVAAPIArgs, getAudioCodecArgs, getBitrateArgs,
            newTranscodingProfile]
          rw [if_neg (by decide), if_pos hdri]
          simp
        have hsplit : splitHardwareArgs (getFFmpegArgs ⟨.amd, "", id, nm, caps, av⟩
            (newTranscodingProfile "h264" "aac" "2M" "128k"))
            = ("-c:v" :: "h264_vaapi" ::
                (["-c:a", "aac", "-b:v", "2M", "-b:a", "128k", "-f", "mpegts"]
                  ++ commonStreamArgs),
               ["-vaapi_device", ""]) := by
          rw [hargs, splitHW_codec _ _ _ (by simp),
            splitHW_device _ _ _ (by decide) (by simp)]
          rfl
        refine ⟨?_, ?_, ?_, ?_, ?_⟩ <;>
          (rw [buildCommand_eq, hsplit]
           simp only [newTranscodingProfile]
           rw [if_neg (by decide)]
           simp only [commonStreamArgs, List.count_append, List.count_cons,
             List.count_nil]
           simp [hurl1, hurl2, hurl3, hurl4, hurl5])
      · have hargs : getFFmpegArgs ⟨.amd, dp, id, nm, caps, av⟩
            (newTranscodingProfile "h264" "aac" "2M" "128k")
            = "-init_hw_device" :: ("vaapi=va:" ++ dp) :: "-filter_hw_device" :: "va" ::
              "-c:v" :: "h264_vaapi" :: "-vaapi_device" :: dp ::
              (["-c:a", "aac", "-b:v", "2M", "-b:a", "128k", "-f", "mpegts"]
                ++ commonStreamArgs) := by
          simp only [getFFmpegArgs, getVideoCodecArgs, getAMDVideoArgs,
            getAMDVAAPIArgs, getAudioCodecArgs, getBitrateArgs,
            newTranscodingProfile]
          rw [if_neg (by decide), if_pos hdri, if_pos hdp0]
          simp
        have hrest : splitHardwareArgs
            (["-c:a", "aac", "-b:v", "2M", "-b:a", "128k", "-f", "mpegts"]
              ++ commonStreamArgs)
            = (["-c:a", "aac", "-b:v", "2M", "-b:a", "128k", "-f", "mpegts"]
                ++ commonStreamArgs, []) := by rfl
        have hsplit : splitHardwareArgs (getFFmpegArgs ⟨.amd, dp, id, nm, caps, av⟩
            (newTranscodingProfile "h264" "aac" "2M" "128k"))
            = ("-c:v" :: "h264_vaapi" ::
                (["-c:a", "aac", "-b:v", "2M", "-b:a", "128k", "-f", "mpegts"]
                  ++ commonStreamArgs),
               "-init_hw_device" :: ("vaapi=va:" ++ dp) :: "-filter_hw_device" ::
                "va" :: "-vaapi_device" :: dp :: []) := by
          rw [hargs, splitHW_device _ _ _ (by decide) (by simp),
            splitHW_device _ _ _ (by decide) (by simp),
            splitHW_codec _ _ _ (by simp),
            splitHW_device _ _ _ (by decide) (by simp), hrest]
        refine ⟨?_, ?_, ?_, ?_, ?_⟩ <;>
          (rw [buildCommand_eq, hsplit]
           simp only [newTranscodingProfile]
           rw [if_neg (by decide)]
           simp only [commonStreamArgs, List.count_append, List.count_cons,
             List.count_nil]
           simp [hdp1, hdp2, hdp3, hdp4, hdp5, hva1, hva2, hva3, hva4, hva5,
             hurl1, hurl2, hurl3, hurl4, hurl5])
    · have hargs : getFFmpegArgs ⟨.amd, dp, id, nm, caps, av⟩
          (newTranscodingProfile "h264" "aac" "2M" "128k")
          = ["-c:v", "h264_amf", "-usage", "transcoding", "-quality", "balanced",
             "-c:a", "aac", "-b:v", "2M", "-b:a", "128k", "-f", "mpegts"]
              ++ commonStreamArgs := by
        simp only [getFFmpegArgs, getVideoCodecArgs, getAMDVideoArgs,
          getAMDAMFArgs, getAudioCodecArgs, getBitrateArgs,
          newTranscodingProfile]
        rw [if_neg (by decide), if_neg hdri]
        simp
      have hsplit : splitHardwareArgs (getFFmpegArgs ⟨.amd, dp, id, nm, caps, av⟩
          (newTranscodingProfile "h264" "aac" "2M" "128k"))
          = (["-c:v", "h264_amf", "-usage", "transcoding", "-quality", "balanced",
              "-c:a", "aac", "-b:v", "2M", "-b:a", "128k", "-f", "mpegts"]
              ++ commonStreamArgs, []) := by
        rw [hargs]
        rfl
      refine ⟨?_, ?_, ?_, ?_, ?_⟩ <;>
        (rw [buildCommand_eq, hsplit]
         simp only [newTranscodingProfile]
         rw [if_neg (by decide)]
         simp only [commonStreamArgs, List.count_append, List.count_cons,
           List.count_nil]
         simp [hurl1, hurl2, hurl3, hurl4, hurl5])
  | cpu =>
    have hsplit : splitHardwareArgs (getFFmpegArgs ⟨.cpu, dp, id, nm, caps, av⟩
        (newTranscodingProfile "h264" "aac" "2M" "128k"))
        = (["-c:v", "libx264",
            "-c:a", "aac", "-b:v", "2M", "-b:a", "128k", "-f", "mpegts"]
            ++ commonStreamArgs, []) := by rfl
    refine ⟨?_, ?_, ?_, ?_, ?_⟩ <;>
      (rw [buildCommand_eq, hsplit]
       simp only [newTranscodingProfile]
       rw [if_neg (by decide)]
       simp only [commonStreamArgs, List.count_append, List.count_cons,
         List.count_nil]
       simp [hurl1, hurl2, hurl3, hurl4, hurl5])
  | auto =>
    have hsplit : splitHardwareArgs (getFFmpegArgs ⟨.auto, dp, id, nm, caps, av⟩
        (newTranscodingProfile "h264" "aac" "2M" "128k"))
        = (["-c:v", "libx264",
            "-c:a", "aac", "-b:v", "2M", "-b:a", "128k", "-f", "mpegts"]
            ++ commonStreamArgs, []) := by rfl
    refine ⟨?_, ?_, ?_, ?_, ?_⟩ <;>
      (rw [buildCommand_eq, hsplit]
       simp only [newTranscodingProfile]
       rw [if_neg (by decide)]
       simp only [commonStreamArgs, List.count_append, List.count_cons,
         List.count_nil]
       simp [hurl1, hurl2, hurl3, hurl4, hurl5])

/-- Witness for C6 at the NVIDIA device and a concrete URL. -/
theorem build_command_stream_codec_once_witness :
    ((buildCommand nvidiaDev (newTranscodingProfile "h264" "aac" "2M" "128k")
      "http://upstream").count "-c:v" = 1) ∧
    ((buildCommand nvidiaDev (newTranscodingProfile "h264" "aac" "2M" "128k")
      "http://upstream").count "-c:a" = 1) ∧
    ((buildCommand nvidiaDev (newTranscodingProfile "h264" "aac" "2M" "128k")
      "http://upstream").count "-b:v" = 1) ∧
    ((buildCommand nvidiaDev (newTranscodingProfile "h264" "aac" "2M" "128k")
      "http://upstream").count "-b:a" = 1) ∧
    ((buildCommand nvidiaDev (newTranscodingProfile "h264" "aac" "2M" "128k")
      "http://upstream").count "-f" = 3) :=
  build_command_stream_codec_once nvidiaDev "http://upstream"
    (by decide) (by decide) (by decide) (by decide)

set_option maxHeartbeats 1000000 in
/-- C7: `Close` is idempotent (a second call returns nil without
redoing any step), marks the transcoder closed, closes stdin first
(before waiting and before the other pipes), treats exit code 255 from
the process wait exactly like a clean exit, and returns the aggregate
of all non-ignorable close-phase errors in step order (nil only when
there are none) rather than just the last error. -/
theorem close_spec (s : CloseScenario) :
    closeTranscoder true s = { errs := none, steps := [], closedAfter := true } ∧
    (closeTranscoder false s).closedAfter = true ∧
    (closeTranscoder false s).steps
      = (if s.hasStdin then [CloseStep.closeStdin] else [])
        ++ (if s.hasProc then [CloseStep.waitProc] else [])
        ++ (if s.hasStdout then [CloseStep.closeStdout] else [])
        ++ (if s.hasStderr then [CloseStep.closeStderr] else []) ∧
    (closeTranscoder false { s with waitRes := WaitRes.exitCode 255 }).errs
      = (closeTranscoder false { s with waitRes := WaitRes.okW }).errs ∧
    (closeTranscoder false s).errs
      = (if closeErrorsSpec s = [] then none else some (closeErrorsSpec s)) := by
  obtain ⟨hin, sie, hpr, wr, hout, soe, herr, see⟩ := s
  refine ⟨rfl, rfl, ?_, ?_, ?_⟩
  · cases hin <;> cases hpr <;> cases hout <;> cases herr <;> rfl
  · cases hpr <;> rfl
  · cases hin <;> cases hpr <;> cases hout <;> cases herr <;>
      cases sie <;> cases soe <;> cases see <;> cases wr <;>
      simp [closeTranscoder, closeErrorsSpec] <;> split_ifs <;> simp_all

end IPTV
